import Mathlib

/-!
Verification of the Mail2Ledger extraction-and-ingestion pipeline.

This file gives a shallow embedding, in Lean 4, of the deterministic core of
the repository:

* app/utils/helpers.py          — blank test, drop gate, sign inference,
                                  AI-record sanitisation, batch insert helper
* app/agents/excel_2ai_agent.py — header de-duplication, grid slicing by
                                  table specs, row→record normalisation
* app/services/ledger_ingest_service.py — bounded-retry batch inserter
* app/email/ingest/pipeline.py  — per-message orchestration of run_once

Python strings are modelled as Lean Strings (lists of characters); Python
scalar values (None / bool / int / float / str) are modelled by the `Value`
inductive, with rationals standing in for floats; Python dicts keyed by
strings are modelled as insertion-ordered association lists with
update-in-place semantics (`dset`).  External collaborators (the LLM
classifier, Gmail, the database driver) are modelled as explicit inputs or
oracles, exactly at the JSON / exception interface the code consumes.
-/

set_option maxHeartbeats 1000000

/-! ## Python string primitives -/

/-- ASCII whitespace recognised by Python `str.strip` (the unicode cases are
not modelled). -/
def isPySpace (c : Char) : Bool :=
  c == ' ' || c == '\t' || c == '\n' || c == '\r' || c == Char.ofNat 11 || c == Char.ofNat 12

/-- `str.lstrip()` on the character list. -/
def pyLStripL (l : List Char) : List Char := l.dropWhile isPySpace

/-- `str.rstrip()` on the character list. -/
def pyRStripL (l : List Char) : List Char := (l.reverse.dropWhile isPySpace).reverse

/-- `str.strip()` on the character list. -/
def pyStripL (l : List Char) : List Char := pyRStripL (pyLStripL l)

/-- Python `s.strip()`. -/
def pyStrip (s : String) : String := ⟨pyStripL s.data⟩

/-- Python `s.lstrip()`. -/
def pyLStrip (s : String) : String := ⟨pyLStripL s.data⟩

/-- Python `s.rstrip()`. -/
def pyRStrip (s : String) : String := ⟨pyRStripL s.data⟩

/-- Python `s.lower()` (ASCII; unicode case folding is not modelled). -/
def pyLower (s : String) : String := ⟨s.data.map Char.toLower⟩

/-- Python `s.startswith(c)` for a one-character needle. -/
def pyStartsWithC (s : String) (c : Char) : Bool := s.data.head? == some c

/-- Python `s.endswith(c)` for a one-character needle. -/
def pyEndsWithC (s : String) (c : Char) : Bool := s.data.getLast? == some c

/-- Python `s.startswith(p)` for a general needle. -/
def pyStartsWith (s p : String) : Bool := p.data.isPrefixOf s.data

/-- Python `s[1:-1]` on the character list: drop the first and last character. -/
def chopEndsL (l : List Char) : List Char := (l.drop 1).dropLast

/-! ## Decimal representation of naturals

Embeds the Python f-string interpolation `f"{key}_{seen[key]}"` used by
`_make_unique_headers`: a natural number printed in decimal.  The definition
is fuel-structural so it evaluates inside the kernel. -/

def natReprAux : Nat → Nat → List Char → List Char
  | 0, _, acc => acc
  | f + 1, n, acc =>
    if n < 10 then Nat.digitChar n :: acc
    else natReprAux f (n / 10) (Nat.digitChar (n % 10) :: acc)

/-- Decimal representation of a natural number (the Python `f"{n}"`). -/
def natRepr (n : Nat) : String := ⟨natReprAux (n + 1) n []⟩

/-- Decimal representation of an integer (the Python `str(n)` for ints). -/
def intRepr (n : Int) : String :=
  if n < 0 then "-" ++ natRepr n.natAbs else natRepr n.toNat

/-! ## Python scalar values

Scalar universe for JSON-ish values flowing through the pipeline: Python
`None`, `bool`, `int`, `float` (as `ℚ`), `str`, plus an opaque timestamp
constructor for `datetime.now(timezone.utc)`. -/

inductive Value where
  | null
  | bool (b : Bool)
  | int (n : Int)
  | num (q : ℚ)
  | str (s : String)
  | time (t : Nat)
  deriving DecidableEq, Repr

/-- A parsed classifier response: either not a JSON object at all, or an
object given as an association list. -/
inductive AiResp where
  | notDict
  | dict (d : List (String × Value))
  deriving DecidableEq, Repr

/-- A record / Python dict keyed by strings, in insertion order. -/
abbrev Rec := List (String × Value)

/-- `rec.get(k)` with Python's `None` default. -/
def dget (r : Rec) (k : String) : Value :=
  match r.lookup k with
  | some v => v
  | none => .null

/-- `d[k] = v` on an insertion-ordered dict: update in place when the key
exists, append otherwise. -/
def dset {β : Type} (r : List (String × β)) (k : String) (v : β) : List (String × β) :=
  match r with
  | [] => [(k, v)]
  | (k', v') :: t => if k' = k then (k, v) :: t else (k', v') :: dset t k v

/-- Python truthiness of a scalar value. -/
def pyTruthy (v : Value) : Bool :=
  match v with
  | .null => false
  | .bool b => b
  | .int n => n ≠ 0
  | .num q => q ≠ 0
  | .str s => s ≠ ""
  | .time _ => true

/-- Python `a or b`. -/
def pyOr (a b : Value) : Value := if pyTruthy a then a else b

/-- Python `str(v)`.  For floats the exact shortest-roundtrip decimal form of
CPython is not reproduced; only the value's non-blankness and failure to
parse as an `int` matter downstream, which the stand-in preserves. -/
def pyStrVal (v : Value) : String :=
  match v with
  | .null => "None"
  | .bool true => "True"
  | .bool false => "False"
  | .int n => intRepr n
  | .num q => toString q.num ++ ".DEC" ++ natRepr q.den
  | .str s => s
  | .time t => "datetime-" ++ natRepr t

/-- Decimal digits to a natural number. -/
def digitsToNat (l : List Char) : Nat := l.foldl (fun a c => 10 * a + (c.toNat - 48)) 0

/-- Split an optional leading sign off a numeric literal. -/
def splitSign (l : List Char) : Int × List Char :=
  match l with
  | c :: t => if c = '+' then (1, t) else if c = '-' then (-1, t) else (1, c :: t)
  | [] => (1, [])

/-- Python `int(s)` on a string: optional sign then a nonempty digit run
(whitespace already allowed around; digit-group underscores are not
modelled).  Returns `none` where CPython raises `ValueError`. -/
def pyIntParse (s : String) : Option Int :=
  let p := splitSign (pyStripL s.data)
  if p.2 ≠ [] ∧ p.2.all Char.isDigit then some (p.1 * digitsToNat p.2) else none

/-- Python `float(s)` restricted to finite decimal literals: optional sign,
digits with an optional decimal point, optional exponent.  `inf` / `nan`
spellings and digit-group underscores are not modelled (treated as parse
failures). -/
def pyFloatParse (s : String) : Option ℚ :=
  let p := splitSign (pyStripL s.data)
  let ip := p.2.takeWhile Char.isDigit
  let l1 := p.2.dropWhile Char.isDigit
  let fp : List Char × List Char :=
    match l1 with
    | '.' :: t => (t.takeWhile Char.isDigit, t.dropWhile Char.isDigit)
    | t => ([], t)
  if ip = [] ∧ fp.1 = [] then none
  else
    let mant : ℚ := (digitsToNat ip : ℚ) + (digitsToNat fp.1 : ℚ) / ((10 : ℚ) ^ fp.1.length)
    match fp.2 with
    | [] => some (p.1 * mant)
    | c :: t =>
      if c = 'e' ∨ c = 'E' then
        let e := splitSign t
        if e.2 ≠ [] ∧ e.2.all Char.isDigit then
          some (p.1 * mant * (10 : ℚ) ^ (e.1 * (digitsToNat e.2 : Int)))
        else none
      else none

/-! ## app/utils/helpers.py -/

/-- `_is_blank_value`: `None`, or a string that strips to empty. -/
def is_blank_value (v : Value) : Bool :=
  match v with
  | .null => true
  | .str s => pyStrip s == ""
  | _ => false

/-- The six signal keys consulted by `_should_drop_record`. -/
def signalKeys : List String :=
  ["description", "custody_account", "trade_date", "amount", "quantity", "amount_sign"]

/-- `_should_drop_record`: drop iff every signal field is blank. -/
def should_drop_record (rec : Rec) : Bool :=
  signalKeys.all (fun k => is_blank_value (dget rec k))

/-- `_infer_sign_from_raw`.  The `.str` arm follows the source literally; the
other scalar arms record the composite behaviour of `str(v).strip()` followed
by the same string tests (a negative int/float prints with a leading minus, a
positive one parses positive under `float`, zero falls through to `None`;
`str(True)` and `str(False)` fail every test). -/
def infer_sign_from_raw (v : Value) : Option Int :=
  match v with
  | .null => none
  | .str s0 =>
    let s := pyStrip s0
    if s = "" then none
    else if pyStartsWithC s '(' ∧ pyEndsWithC s ')' then some (-1)
    else if pyStartsWithC s '-' ∨ pyEndsWithC s '-' then some (-1)
    else
      match pyFloatParse ⟨s.data.filter (fun c => c ≠ ',')⟩ with
      | some x => if 0 < x then some 1 else if x < 0 then some (-1) else none
      | none => none
  | .int n => if n < 0 then some (-1) else if 0 < n then some 1 else none
  | .num q => if q < 0 then some (-1) else if 0 < q then some 1 else none
  | .bool _ => none
  | .time _ => none

/-- `_compute_amount_sign_raw`. -/
def compute_amount_sign_raw (ttype_raw : Option String) (qty_raw amt_raw : Value)
    (sheet_index : Nat) : Option Int :=
  let t := pyLower (pyStrip (ttype_raw.getD ""))
  let qty_sign := infer_sign_from_raw qty_raw
  let amt_sign := infer_sign_from_raw amt_raw
  if sheet_index = 1 then
    match qty_sign with
    | some s => some (if 0 < s then -1 else 1)
    | none => amt_sign
  else if t = "subscription" ∨ t = "redemption" then
    match qty_sign with
    | some s => some (if 0 < s then -1 else 1)
    | none => amt_sign
  else amt_sign

/-- `OUTPUT_COLS = STATEMENT_TXN_KEYS` from app/prompts/extract_agent_prompts.py. -/
def outputCols : List String :=
  ["transaction_type", "booking_text", "description",
   "account", "custody_account", "debit_account", "credit_account",
   "client_name", "order_no", "settlement_no", "document_no",
   "trade_date", "settle_date", "value_date", "booking_date", "ex_date", "due_date",
   "period_from", "period_to",
   "currency", "amount", "amount_sign", "gross_amount", "net_amount", "amount_text",
   "quantity", "price", "nominal", "coupon_rate_percent", "fx_rate", "trading_currency",
   "security_name", "ticker", "isin", "valor", "cusip", "sedol",
   "execution_venue", "execution_time",
   "commission", "stock_exchange_fee", "third_party_executions_fee",
   "foreign_financial_fee", "other_fee", "fees_total",
   "withholding_tax", "transaction_tax", "taxes_total",
   "realized_pl", "transaction_gain", "exchange_gain",
   "bank_name", "counterparty_bic", "beneficiary_name", "beneficiary_account",
   "createdon", "file_name", "client_id", "cash_distribution_amount"]

/-- One field of `_sanitize_ai_record`: empty / whitespace-only strings
become `None`. -/
def sanitizeField (v : Value) : Value :=
  match v with
  | .str s => if pyStrip s = "" then .null else .str s
  | v => v

/-- `_sanitize_ai_record`: clamp any classifier output to exactly the
`OUTPUT_COLS` key set (the dict comprehension over `OUTPUT_COLS`, whose keys
are pairwise distinct, is written as a map). -/
def sanitize_ai_record (obj : AiResp) : Rec :=
  match obj with
  | .notDict => outputCols.map (fun c => (c, Value.null))
  | .dict d =>
    outputCols.map (fun c =>
      (c, match d.lookup c with
          | some v => sanitizeField v
          | none => Value.null))

/-! ## app/agents/excel_2ai_agent.py — header de-duplication and grid slicing -/

/-- The loop body of `_make_unique_headers`, carrying the `seen` dict. -/
def makeUniqueHeadersAux (seen : List (String × Nat)) : List String → List String
  | [] => []
  | h :: t =>
    match seen.lookup h with
    | some c => (h ++ "_" ++ natRepr (c + 1)) :: makeUniqueHeadersAux (dset seen h (c + 1)) t
    | none => h :: makeUniqueHeadersAux (dset seen h 1) t

/-- `_make_unique_headers`. -/
def make_unique_headers (headers : List String) : List String :=
  makeUniqueHeadersAux [] headers

/-- One detector table spec (1-based rows, optional note / table name), as
consumed by `_extract_rows_from_xlsx_bytes_using_specs`.  A value whose
`int(...)` conversion fails behaves like a missing value (both `continue`),
so the row bounds are modelled post-conversion as `Option Int`. -/
structure TableSpec where
  header_row : Option Int
  data_start : Option Int
  data_end : Option Int
  note : Option String
  table : Option String
  deriving DecidableEq, Repr

/-- A worksheet grid: row-major display-text cells (`header=None`,
`dtype=str`, `fillna("")`). -/
abbrev Grid := List (List String)

/-- One extracted row context. -/
structure RowCtx where
  sheet_idx : Nat
  sheet_name : String
  table : String
  excel_row : Nat
  row_idx : Nat
  row : List (String × String)
  deriving DecidableEq, Repr

/-- The `note in {"no record", "no records"}` sentinel test. -/
def noRecordNote (spec : TableSpec) : Bool :=
  let n := pyLower (pyStrip (spec.note.getD ""))
  n == "no record" || n == "no records"

/-- `spec.get("table") or f"table_{t_i+1}"`. -/
def tableNameOf (spec : TableSpec) (t_i : Nat) : String :=
  match spec.table with
  | some s => if s ≠ "" then s else "table_" ++ natRepr (t_i + 1)
  | none => "table_" ++ natRepr (t_i + 1)

/-- Bounds handling of one spec: 1-based to 0-based conversion, the skip
conditions, and the clamp of `data_end` to the last grid row.  Returns
`none` exactly when the source `continue`s. -/
def specBounds (spec : TableSpec) (nRows : Nat) : Option (Nat × Nat × Nat) :=
  match spec.header_row, spec.data_start, spec.data_end with
  | some hr1, some ds1, some de1 =>
    let hr := hr1 - 1
    let ds := ds1 - 1
    let de := de1 - 1
    if hr < 0 ∨ ds < 0 ∨ de < ds then none
    else if (nRows : Int) ≤ hr ∨ (nRows : Int) ≤ ds then none
    else some (hr.toNat, ds.toNat, (min de ((nRows : Int) - 1)).toNat)
  | _, _, _ => none

/-- Header-row filtering: strip every cell, drop empty headers, and (when
`drop_unnamed`) drop `Unnamed:`-prefixed ones, keeping original column
indices. -/
def headerPairs (dropUnnamed : Bool) (hdrRowCells : List String) : List (Nat × String) :=
  ((hdrRowCells.map pyStrip).enum).filter
    (fun p => p.2 ≠ "" ∧ ¬(dropUnnamed = true ∧ pyStartsWith p.2 "Unnamed:" = true))

/-- Build one `row_dict` (a Python dict, so a duplicated header key
overwrites) from the deduplicated headers and their column indices. -/
def buildRowFields (headers : List String) (validIdx : List Nat)
    (rowVals : List String) : List (String × String) :=
  (headers.zip validIdx).foldl
    (fun d p => dset d p.1 (pyStrip (rowVals.getD p.2 "")))
    []

/-- The all-values-blank test applied per assembled row when
`drop_all_blank_rows` is set. -/
def rowAllBlank (fields : List (String × String)) : Bool :=
  fields.all (fun p => pyStrip p.2 == "")

/-- Slice one table spec out of a grid, threading the global row counter. -/
def extractTable (grid : Grid) (sheet_idx : Nat) (sheet_name : String) (t_i : Nat)
    (spec : TableSpec) (dropUnnamed dropBlank : Bool) (startIdx : Nat) :
    List RowCtx × Nat :=
  if noRecordNote spec then ([], startIdx)
  else
    match specBounds spec grid.length with
    | none => ([], startIdx)
    | some (hr, ds, de) =>
      let pairs := headerPairs dropUnnamed (grid.getD hr [])
      if pairs = [] then ([], startIdx)
      else
        let headers := make_unique_headers (pairs.map (fun p => p.2))
        let idxs := pairs.map (fun p => p.1)
        let tname := tableNameOf spec t_i
        (List.range' ds (de + 1 - ds)).foldl
          (fun acc r0 =>
            let fields := buildRowFields headers idxs (grid.getD r0 [])
            if dropBlank && rowAllBlank fields then acc
            else
              (acc.1 ++ [{ sheet_idx := sheet_idx, sheet_name := sheet_name,
                           table := tname, excel_row := r0 + 1, row_idx := acc.2,
                           row := fields }],
               acc.2 + 1))
          ([], startIdx)

/-- Slice every spec of one sheet (skipping an empty grid, like
`n_rows <= 0`). -/
def extractSheet (grid : Grid) (sheet_idx : Nat) (sheet_name : String)
    (specs : List TableSpec) (dropUnnamed dropBlank : Bool) (startIdx : Nat) :
    List RowCtx × Nat :=
  if grid.length = 0 then ([], startIdx)
  else
    (specs.enum).foldl
      (fun acc p =>
        let r := extractTable grid sheet_idx sheet_name p.1 p.2 dropUnnamed dropBlank acc.2
        (acc.1 ++ r.1, r.2))
      ([], startIdx)

/-- `_extract_rows_from_xlsx_bytes_using_specs`: the workbook is modelled as
the (name, grid) list in `sheet_names` order, and the detector output as an
association list looked up by sheet name (`.get(name) or []`). -/
def extract_rows_using_specs (sheets : List (String × Grid))
    (specsBySheet : List (String × List TableSpec)) (dropUnnamed dropBlank : Bool) :
    List RowCtx :=
  ((sheets.enum).foldl
    (fun acc p =>
      let specs := (specsBySheet.lookup p.2.1).getD []
      if specs = [] then acc
      else
        let r := extractSheet p.2.2 p.1 p.2.1 specs dropUnnamed dropBlank acc.2
        (acc.1 ++ r.1, r.2))
    ([], 0)).1

/-! ## app/agents/excel_2ai_agent.py — row → DB record normalisation

`ai_transform_one_row_to_db_record` calls the external classifier; the
classifier's parsed JSON response enters the model as the `obj : AiResp`
input, and `datetime.now(timezone.utc)` as the opaque `now` stamp. -/

/-- `row_dict_to_json_obj` at its call-site arguments
(`keep_empty=False, empty_to_none=True`). -/
def row_dict_to_json_obj (row : List (String × Value)) : Rec :=
  row.foldl
    (fun out p =>
      let v := match p.2 with | .str s => Value.str (pyStrip s) | v => v
      let v := if v = .str "" then Value.null else v
      if v = .null then out else dset out p.1 v)
    []

/-- The explicit-`amount_sign` clamp: `int(str(v).strip())`, kept only when
in `(-1, 1)`, everything else (including conversion failure) becomes
`None`. -/
def intNormSign (v : Value) : Value :=
  match pyIntParse (pyStrip (pyStrVal v)) with
  | some n => if n = -1 ∨ n = 1 then .int n else .null
  | none => .null

/-- First normalisation step: run the clamp only when the field is not
`None`. -/
def recAfterExplicit (r : Rec) : Rec :=
  if dget r "amount_sign" = .null then r
  else dset r "amount_sign" (intNormSign (dget r "amount_sign"))

/-- The raw transaction-type text:
`str(rec.get("transaction_type") or row_json.get("Type") or
row_json.get("Transaction Type") or "").strip().lower()`. -/
def tRawOf (r : Rec) (row_json : Rec) : String :=
  pyLower (pyStrip (pyStrVal (pyOr (dget r "transaction_type")
    (pyOr (dget row_json "Type") (pyOr (dget row_json "Transaction Type") (.str ""))))))

/-- Lift an optional sign into a scalar value. -/
def optSign (o : Option Int) : Value :=
  match o with
  | some n => .int n
  | none => .null

/-- Second normalisation step: infer the sign from raw fields when it is
still absent. -/
def recAfterInfer (r : Rec) (row_json : Rec) (sheet_idx : Nat) : Rec :=
  if dget r "amount_sign" = .null then
    dset r "amount_sign"
      (optSign (compute_amount_sign_raw (some (tRawOf r row_json))
        (dget r "quantity") (dget r "amount") sheet_idx))
  else r

/-- The textual branch of magnitude de-signing: strip, empty ⇒ `None`, then
the three sequential transformations of the source
(`(x)` chop + strip, leading `-` chop + lstrip, trailing `-` chop + rstrip),
then empty ⇒ `None`. -/
def deSignText (s0 : String) : Value :=
  let s := pyStrip s0
  if s = "" then .null
  else
    let s := if pyStartsWithC s '(' ∧ pyEndsWithC s ')' then pyStrip ⟨chopEndsL s.data⟩ else s
    let s := if pyStartsWithC s '-' then pyLStrip ⟨s.data.drop 1⟩ else s
    let s := if pyEndsWithC s '-' then pyRStrip ⟨s.data.dropLast⟩ else s
    if s = "" then .null else .str s

/-- Magnitude de-signing of one non-`None` value: `abs` on parsed numbers
(a Python `bool` is an `int` instance, so `abs(True) = 1`), the textual
branch otherwise. -/
def deSignValue (v : Value) : Value :=
  match v with
  | .null => .null
  | .int n => .int |n|
  | .num q => .num |q|
  | .bool b => .int (if b then 1 else 0)
  | .str s => deSignText s
  | .time t => deSignText (pyStrVal (.time t))

/-- The four magnitude fields, in source order. -/
def magnitudeKeys : List String := ["amount", "quantity", "gross_amount", "net_amount"]

/-- De-sign all four magnitude fields (`None` values are skipped
unchanged). -/
def deSignRec (r : Rec) : Rec :=
  magnitudeKeys.foldl
    (fun r k =>
      let v := dget r k
      if v = .null then r else dset r k (deSignValue v))
    r

/-- Python `v == n` for an integer literal `n` (`True == 1`,
`-1.0 == -1`). -/
def pyEqInt (v : Value) (n : Int) : Bool :=
  match v with
  | .int m => m == n
  | .num q => q == (n : ℚ)
  | .bool b => (if b then (1 : Int) else 0) == n
  | _ => false

/-- Third normalisation step: de-sign the magnitudes once
`rec.get("amount_sign") in (-1, 1)`. -/
def recAfterDesign (r : Rec) : Rec :=
  if pyEqInt (dget r "amount_sign") (-1) || pyEqInt (dget r "amount_sign") 1 then
    deSignRec r
  else r

/-- Lift an optional string parameter (`str | None`). -/
def optStrV (o : Option String) : Value :=
  match o with
  | some s => .str s
  | none => .null

/-- Lift an optional int parameter (`int | None`). -/
def optIntV (o : Option Int) : Value :=
  match o with
  | some n => .int n
  | none => .null

/-- Fourth step: the five system-field overwrites. -/
def recSystem (r : Rec) (now : Nat) (file_name : Option String)
    (client_id : Option Int) (bank_name : Option String) : Rec :=
  let r := dset r "createdon" (.time now)
  let r := dset r "file_name" (optStrV file_name)
  let r := dset r "client_id" (optIntV client_id)
  let r := dset r "bank_name" (optStrV bank_name)
  dset r "value_date" (dget r "trade_date")

/-- The record as it stands after the two sign steps, before de-signing. -/
def recSigned (obj : AiResp) (row : List (String × Value)) (sheet_idx : Nat) : Rec :=
  recAfterInfer (recAfterExplicit (sanitize_ai_record obj)) (row_dict_to_json_obj row) sheet_idx

/-- The resolved `amount_sign` of a record, after the explicit clamp and the
raw inference. -/
def resolvedSign (obj : AiResp) (row : List (String × Value)) (sheet_idx : Nat) : Value :=
  dget (recSigned obj row sheet_idx) "amount_sign"

/-- The fully normalised record, just before the drop gate. -/
def finalRec (obj : AiResp) (row : List (String × Value)) (sheet_idx : Nat)
    (bank_name file_name : Option String) (client_id : Option Int) (now : Nat) : Rec :=
  recSystem (recAfterDesign (recSigned obj row sheet_idx)) now file_name client_id bank_name

/-- `ai_transform_one_row_to_db_record`: normalise, then apply the drop
gate. -/
def ai_transform_one_row_to_db_record (obj : AiResp) (row : List (String × Value))
    (sheet_idx : Nat) (bank_name file_name : Option String) (client_id : Option Int)
    (now : Nat) : Option Rec :=
  let r := finalRec obj row sheet_idx bank_name file_name client_id now
  if should_drop_record r then none else some r

/-! ## app/services/ledger_ingest_service.py — `_insert_batch`

The database driver is an oracle from attempt number (1-based) to outcome:
success with a row count, a `psycopg2.OperationalError`, or any other
exception.  Each loop iteration constructs an `AWSPostgresGateway` and the
`finally` block closes it; those resource events are recorded in a trace. -/

inductive DbOutcome where
  | ok (n : Nat)
  | opErr
  | otherErr
  deriving DecidableEq, Repr

inductive BatchResult where
  | ret (n : Nat)
  | raisedOp
  | raisedOther
  deriving DecidableEq, Repr

inductive GwEvent where
  | acquire (attempt : Nat)
  | release (attempt : Nat)
  deriving DecidableEq, Repr

/-- The `for attempt in range(1, attempts + 1)` loop of `_insert_batch`,
structurally recursive on the remaining iteration count.  `remaining = 0`
corresponds to falling off the loop (`raise last_err` when an operational
error is pending, else `return 0`). -/
def insertLoop (oracle : Nat → DbOutcome) : Nat → Nat → Bool → BatchResult × List GwEvent
  | 0, _, lastErr => (if lastErr then .raisedOp else .ret 0, [])
  | remaining + 1, attempt, _ =>
    match oracle attempt with
    | .ok n => (.ret n, [.acquire attempt, .release attempt])
    | .otherErr => (.raisedOther, [.acquire attempt, .release attempt])
    | .opErr =>
      if remaining = 0 then (.raisedOp, [.acquire attempt, .release attempt])
      else
        let r := insertLoop oracle remaining (attempt + 1) true
        (r.1, .acquire attempt :: .release attempt :: r.2)

/-- `LedgerIngestService._insert_batch`: empty batch short-circuits to 0
without touching the pool; otherwise `attempts = 1 + max(0, db_retry)`
loop iterations at most. -/
def insert_batch (recordsLen : Nat) (db_retry : Int) (oracle : Nat → DbOutcome) :
    BatchResult × List GwEvent :=
  if recordsLen = 0 then (.ret 0, [])
  else insertLoop oracle (1 + (max 0 db_retry).toNat) 1 false

/-! ## app/email/ingest/pipeline.py — `run_once` per-message orchestration

A candidate message carries, as oracles, the outcome of every external call
made while processing it: whether the fetch/parse/download phase raises,
the eligible attachments it yields, what `ingest_email_job` returns (or that
it raises), and whether the best-effort notification sends raise. -/

inductive IngestOutcome where
  | ok (n : Nat)
  | raises
  deriving DecidableEq, Repr

structure Msg where
  mid : String
  fetchErr : Bool
  attachments : List String
  ingest : IngestOutcome
  alertFails : Bool
  receiptFails : Bool
  senderAddr : Option String
  deriving DecidableEq, Repr

structure NotifyCfg where
  alertEnabled : Bool
  receiptEnabled : Bool
  deriving DecidableEq, Repr

structure RunState where
  processedSet : List String
  markedRead : List String
  alerted : List String
  emails_processed : Nat
  rows_inserted : Nat
  emails_failed : Nat
  emails_skipped : Nat
  deriving DecidableEq, Repr

def initialRunState : RunState :=
  { processedSet := [], markedRead := [], alerted := [],
    emails_processed := 0, rows_inserted := 0, emails_failed := 0, emails_skipped := 0 }

/-- The failure branch shared by the `inserted <= 0` path and the
message-level `except` handler: count the failure and attempt the alert
(best-effort — a raising `send_email_text` is caught and logged, so the
state does not depend on `alertFails`); the message is neither marked read
nor added to the seen set. -/
def failState (cfg : NotifyCfg) (st : RunState) (m : Msg) : RunState :=
  { st with
    emails_failed := st.emails_failed + 1,
    alerted := if cfg.alertEnabled then st.alerted ++ [m.mid] else st.alerted }

/-- Processing of one candidate message inside `run_once`'s label loop. -/
def processMessage (cfg : NotifyCfg) (st : RunState) (m : Msg) : RunState :=
  if m.mid ∈ st.processedSet then st
  else if m.fetchErr then failState cfg st m
  else if m.attachments = [] then
    { st with
      emails_skipped := st.emails_skipped + 1,
      processedSet := st.processedSet ++ [m.mid] }
  else
    match m.ingest with
    | .raises => failState cfg st m
    | .ok n =>
      if n = 0 then failState cfg st m
      else
        let st :=
          { st with
            rows_inserted := st.rows_inserted + n,
            markedRead := st.markedRead ++ [m.mid],
            emails_processed := st.emails_processed + 1,
            processedSet := st.processedSet ++ [m.mid] }
        -- best-effort receipt to the sender; a failing receipt triggers a
        -- best-effort alert; neither affects counters or markers
        if cfg.receiptEnabled ∧ m.senderAddr.isSome ∧ m.receiptFails ∧ cfg.alertEnabled then
          { st with alerted := st.alerted ++ [m.mid] }
        else st

/-- One `run_once` pass over an already-flattened candidate list (labels
resolved, ids listed oldest-to-newest). -/
def runOnceMsgs (cfg : NotifyCfg) (candidates : List Msg) : RunState :=
  candidates.foldl (processMessage cfg) initialRunState

/-- One poll: the Gmail search (`is:unread` base query) only returns
messages not yet marked read, then `run_once` processes them. -/
def poll (cfg : NotifyCfg) (world : List String) (msgs : List Msg) : RunState :=
  runOnceMsgs cfg (msgs.filter (fun m => m.mid ∉ world))


/-! ## Spec-side definitions (for refinement comparisons) and proof helpers -/

/-- Spec-side de-signing as the specification words it: at most ONE
transformation — an enclosing parenthesis pair, else a leading minus, else a
trailing minus, in that priority — then empty ⇒ null. -/
def deSignTextAtMostOne (s0 : String) : Value :=
  let s := pyStrip s0
  if s = "" then .null
  else
    let r :=
      if pyStartsWithC s '(' ∧ pyEndsWithC s ')' then pyStrip ⟨chopEndsL s.data⟩
      else if pyStartsWithC s '-' then pyLStrip ⟨s.data.drop 1⟩
      else if pyEndsWithC s '-' then pyRStrip ⟨s.data.dropLast⟩
      else s
    if r = "" then .null else .str r

/-- Strip one enclosing parenthesis pair, if present. -/
def stripParensOnce (s : String) : String :=
  if pyStartsWithC s '(' ∧ pyEndsWithC s ')' then pyStrip ⟨chopEndsL s.data⟩ else s

/-- Strip one leading minus, if present. -/
def stripLeadingMinus (s : String) : String :=
  if pyStartsWithC s '-' then pyLStrip ⟨s.data.drop 1⟩ else s

/-- Strip one trailing minus, if present. -/
def stripTrailingMinus (s : String) : String :=
  if pyEndsWithC s '-' then pyRStrip ⟨s.data.dropLast⟩ else s

/-- Spec-side de-signing as amended: the three transformations applied in
sequence (parentheses, then leading minus, then trailing minus), each at
most once; empty ⇒ null at entry and exit. -/
def deSignTextSeqSpec (s0 : String) : Value :=
  let s := pyStrip s0
  if s = "" then .null
  else
    let r := stripTrailingMinus (stripLeadingMinus (stripParensOnce s))
    if r = "" then .null else .str r

/-- The sign the raw-inference path would assign, at the point where
`ai_transform_one_row_to_db_record` invokes `_compute_amount_sign_raw`. -/
def inferredSign (obj : AiResp) (row : List (String × Value)) (sheet_idx : Nat) : Option Int :=
  let r := recAfterExplicit (sanitize_ai_record obj)
  compute_amount_sign_raw (some (tRawOf r (row_dict_to_json_obj row)))
    (dget r "quantity") (dget r "amount") sheet_idx

/-- No header label textually equals another label suffixed with an
underscore and a counter ≥ 2 — the proviso under which the running-counter
renaming is collision-free. -/
def headerNoCollision (hs : List String) : Prop :=
  ∀ h1 ∈ hs, ∀ h2 ∈ hs, ∀ k : Nat, 2 ≤ k → h1 ≠ h2 ++ "_" ++ natRepr k

/-- The filtered header labels a spec with 0-based header row `hr` sees. -/
def specHeaderLabels (dropUnnamed : Bool) (grid : Grid) (hr : Nat) : List String :=
  (headerPairs dropUnnamed (grid.getD hr [])).map (fun p => p.2)

/-- Every count stored in the `seen` dict is at least 1. -/
def SeenWF (seen : List (String × Nat)) : Prop := ∀ p ∈ seen, 1 ≤ p.2

/-- The count `seen` records for a header (0 when absent). -/
def seenCount (seen : List (String × Nat)) (h : String) : Nat :=
  (seen.lookup h).getD 0

/-- Whether a data row of a sliced table survives the blank-row filter. -/
def keptRow (grid : Grid) (dropUnnamed : Bool) (hr : Nat) (dropBlank : Bool) (r : Nat) : Bool :=
  let pairs := headerPairs dropUnnamed (grid.getD hr [])
  let headers := make_unique_headers (pairs.map (fun p => p.2))
  let idxs := pairs.map (fun p => p.1)
  !(dropBlank && rowAllBlank (buildRowFields headers idxs (grid.getD (r - 1) [])))

/-- The row context `extractTable` emits for 0-based grid row `r0` at global
sequence index `i`. -/
def mkRowCtx (grid : Grid) (sheet_idx : Nat) (sheet_name tname : String)
    (headers : List String) (idxs : List Nat) (r0 i : Nat) : RowCtx :=
  { sheet_idx := sheet_idx, sheet_name := sheet_name, table := tname,
    excel_row := r0 + 1, row_idx := i,
    row := buildRowFields headers idxs (grid.getD r0 []) }

/-- The rows emitted for a list of (kept) 0-based grid rows, numbering from
`i`. -/
def buildRows (grid : Grid) (sheet_idx : Nat) (sheet_name tname : String)
    (headers : List String) (idxs : List Nat) : List Nat → Nat → List RowCtx
  | [], _ => []
  | r0 :: t, i =>
    mkRowCtx grid sheet_idx sheet_name tname headers idxs r0 i ::
      buildRows grid sheet_idx sheet_name tname headers idxs t (i + 1)

/-- The canonical acquire/release trace of `m` gateway attempts starting at
attempt number `a`. -/
def gwTrace : Nat → Nat → List GwEvent
  | _, 0 => []
  | a, m + 1 => .acquire a :: .release a :: gwTrace (a + 1) m


/-! ## Theorems.  First, library lemmas about dicts and decimal reprs. -/

theorem lookup_mem {β : Type} (l : List (String × β)) (k : String) (v : β)
    (h : l.lookup k = some v) : (k, v) ∈ l := by
  induction l with
  | nil => simp [List.lookup] at h
  | cons p t ih =>
    rw [List.lookup] at h
    by_cases hk : k == p.1
    · simp only [hk, if_pos] at h
      have hk2 : k = p.1 := beq_iff_eq.mp hk
      have hpe : (k, v) = p := by
        cases p with
        | mk a b =>
          simp at hk2 h
          exact Prod.ext hk2 (by simp [h])
      rw [hpe]; exact List.mem_cons_self p t
    · simp only [hk, Bool.false_eq_true, if_neg, reduceIte] at h
      exact List.mem_cons_of_mem p (ih h)

theorem lookup_dset_self {β : Type} (l : List (String × β)) (k : String) (v : β) :
    (dset l k v).lookup k = some v := by
  induction l with
  | nil => simp [dset, List.lookup]
  | cons p t ih =>
    by_cases hk : p.1 = k
    · simp [dset, hk, List.lookup]
    · simp only [dset, hk, if_neg, reduceIte]
      rw [List.lookup]
      have : (k == p.1) = false := by
        simp only [beq_eq_false_iff_ne, ne_eq]
        intro hc; exact hk hc.symm
      simp [this, ih]

theorem lookup_dset_ne {β : Type} (l : List (String × β)) (k k' : String) (v : β)
    (h : k ≠ k') : (dset l k v).lookup k' = l.lookup k' := by
  induction l with
  | nil =>
    simp only [dset, List.lookup]
    have : (k' == k) = false := by simp [beq_eq_false_iff_ne]; intro hc; exact h hc.symm
    simp [this]
  | cons p t ih =>
    by_cases hk : p.1 = k
    · simp only [dset, hk, if_pos]
      rw [List.lookup, List.lookup]
      have h1 : (k' == k) = false := by simp [beq_eq_false_iff_ne]; intro hc; exact h hc.symm
      have h2 : (k' == p.1) = false := by rw [hk]; exact h1
      simp [h1, h2]
    · simp only [dset, hk, if_neg, reduceIte]
      rw [List.lookup, List.lookup]
      by_cases hp : k' == p.1
      · simp [hp]
      · simp only [hp, Bool.false_eq_true, if_neg, reduceIte]
        exact ih

theorem dget_dset_self (r : Rec) (k : String) (v : Value) : dget (dset r k v) k = v := by
  simp [dget, lookup_dset_self]

theorem dget_dset_ne (r : Rec) (k k' : String) (v : Value) (h : k ≠ k') :
    dget (dset r k v) k' = dget r k' := by
  simp [dget, lookup_dset_ne r k k' v h]

theorem map_fst_dset {β : Type} (l : List (String × β)) (k : String) (v : β) :
    (dset l k v).map Prod.fst =
      if k ∈ l.map Prod.fst then l.map Prod.fst else l.map Prod.fst ++ [k] := by
  induction l with
  | nil => simp [dset]
  | cons p t ih =>
    by_cases hk : p.1 = k
    · simp [dset, hk]
    · have hk2 : ¬(k = p.1) := fun hc => hk hc.symm
      simp only [dset, hk, if_neg, reduceIte, List.map_cons, List.mem_cons]
      rw [ih]
      by_cases hm : k ∈ t.map Prod.fst
      · simp [hm, hk2]
      · simp [hm, hk2]

theorem values_dset {β : Type} (P : β → Prop) (l : List (String × β)) (k : String) (v : β)
    (hl : ∀ p ∈ l, P p.2) (hv : P v) : ∀ p ∈ dset l k v, P p.2 := by
  induction l with
  | nil => simp [dset]; exact hv
  | cons q t ih =>
    intro p hp
    by_cases hk : q.1 = k
    · simp only [dset, hk, if_pos, List.mem_cons] at hp
      rcases hp with hp | hp
      · rw [hp]; exact hv
      · exact hl p (List.mem_cons_of_mem q hp)
    · simp only [dset, hk, if_neg, reduceIte, List.mem_cons] at hp
      rcases hp with hp | hp
      · rw [hp]; exact hl q (List.mem_cons_self q t)
      · exact ih (fun p hp => hl p (List.mem_cons_of_mem q hp)) p hp

/-! Decimal representation lemmas. -/

theorem natReprAux_acc (f : Nat) : ∀ (n : Nat) (acc : List Char),
    natReprAux f n acc = natReprAux f n [] ++ acc := by
  induction f with
  | zero => intro n acc; simp [natReprAux]
  | succ f ih =>
    intro n acc
    by_cases h : n < 10
    · simp [natReprAux, h]
    · simp only [natReprAux, if_neg h]
      rw [ih (n / 10) (Nat.digitChar (n % 10) :: acc), ih (n / 10) [Nat.digitChar (n % 10)]]
      simp

theorem digitChar_toNat {k : Nat} (h : k < 10) : (Nat.digitChar k).toNat = 48 + k := by
  interval_cases k <;> decide

theorem natReprAux_chars (f : Nat) : ∀ (n : Nat) (c : Char),
    c ∈ natReprAux f n [] → 48 ≤ c.toNat ∧ c.toNat ≤ 57 := by
  induction f with
  | zero => intro n c hc; simp [natReprAux] at hc
  | succ f ih =>
    intro n c hc
    by_cases h : n < 10
    · simp [natReprAux, h] at hc
      rw [hc, digitChar_toNat h]; omega
    · simp only [natReprAux, if_neg h] at hc
      rw [natReprAux_acc] at hc
      rcases List.mem_append.1 hc with h1 | h2
      · exact ih _ _ h1
      · simp at h2
        have hm : n % 10 < 10 := Nat.mod_lt _ (by norm_num)
        rw [h2, digitChar_toNat hm]; omega

theorem natRepr_chars (n : Nat) (c : Char) (hc : c ∈ (natRepr n).data) :
    48 ≤ c.toNat ∧ c.toNat ≤ 57 := natReprAux_chars (n + 1) n c hc

theorem digitsToNat_append_single (l : List Char) (c : Char) :
    digitsToNat (l ++ [c]) = 10 * digitsToNat l + (c.toNat - 48) := by
  simp [digitsToNat, List.foldl_append]

theorem digitsToNat_natReprAux : ∀ (f n : Nat), n < 10 ^ f →
    digitsToNat (natReprAux f n []) = n := by
  intro f
  induction f with
  | zero =>
    intro n h
    simp only [pow_zero, Nat.lt_one_iff] at h
    simp [natReprAux, digitsToNat, h]
  | succ f ih =>
    intro n h
    by_cases h10 : n < 10
    · simp [natReprAux, h10, digitsToNat, digitChar_toNat h10]
    · simp only [natReprAux, if_neg h10]
      rw [natReprAux_acc, digitsToNat_append_single]
      have hdiv : n / 10 < 10 ^ f := by
        rw [Nat.div_lt_iff_lt_mul (by norm_num : 0 < 10)]
        calc n < 10 ^ (f + 1) := h
        _ = 10 ^ f * 10 := by ring
      rw [ih (n / 10) hdiv]
      have hm : n % 10 < 10 := Nat.mod_lt _ (by norm_num)
      rw [digitChar_toNat hm]
      omega

theorem natRepr_decode (n : Nat) : digitsToNat (natRepr n).data = n := by
  have h1 : n < 10 ^ n ∨ n = 0 := by
    rcases Nat.eq_zero_or_pos n with h | h
    · exact Or.inr h
    · exact Or.inl (Nat.lt_pow_self (by norm_num) n)
  have h : n < 10 ^ (n + 1) := by
    rcases h1 with h1 | h1
    · calc n < 10 ^ n := h1
      _ ≤ 10 ^ (n + 1) := Nat.pow_le_pow_right (by norm_num) (Nat.le_succ n)
    · rw [h1]; positivity
  exact digitsToNat_natReprAux (n + 1) n h

theorem natRepr_inj {m n : Nat} (h : natRepr m = natRepr n) : m = n := by
  have := congrArg (fun s => digitsToNat s.data) h
  simpa [natRepr_decode] using this

theorem natRepr_no_underscore (n : Nat) : '_' ∉ (natRepr n).data := by
  intro hc
  have h := natRepr_chars n '_' hc
  exact absurd h (by decide)

theorem sep_append_inj : ∀ (xs ys u v : List Char), '_' ∉ xs → '_' ∉ ys →
    xs ++ '_' :: u = ys ++ '_' :: v → xs = ys ∧ u = v := by
  intro xs
  induction xs with
  | nil =>
    intro ys u v _ hys h
    cases ys with
    | nil =>
      simp only [List.nil_append, List.cons.injEq] at h
      exact ⟨rfl, h.2⟩
    | cons c t =>
      simp only [List.nil_append, List.cons_append, List.cons.injEq] at h
      exact absurd (h.1.symm ▸ List.mem_cons_self c t) hys
  | cons c t ih =>
    intro ys u v hxs hys h
    cases ys with
    | nil =>
      simp only [List.cons_append, List.nil_append, List.cons.injEq] at h
      exact absurd (h.1 ▸ List.mem_cons_self c t) hxs
    | cons c' t' =>
      simp only [List.cons_append, List.cons.injEq] at h
      obtain ⟨hc, ht⟩ := h
      have hxs' : '_' ∉ t := fun hm => hxs (List.mem_cons_of_mem c hm)
      have hys' : '_' ∉ t' := fun hm => hys (List.mem_cons_of_mem c' hm)
      obtain ⟨h1, h2⟩ := ih t' u v hxs' hys' ht
      exact ⟨by rw [hc, h1], h2⟩

theorem sep_append_inj_last {a b d1 d2 : List Char} (h1 : '_' ∉ d1) (h2 : '_' ∉ d2)
    (h : a ++ '_' :: d1 = b ++ '_' :: d2) : a = b ∧ d1 = d2 := by
  have hrev := congrArg List.reverse h
  have e : ∀ (x : List Char) (d : List Char),
      (x ++ '_' :: d).reverse = d.reverse ++ '_' :: x.reverse := by
    intro x d
    rw [List.reverse_append, List.reverse_cons]
    simp
  rw [e a d1, e b d2] at hrev
  have h1' : '_' ∉ d1.reverse := fun hm => h1 (List.mem_reverse.1 hm)
  have h2' : '_' ∉ d2.reverse := fun hm => h2 (List.mem_reverse.1 hm)
  obtain ⟨hd, hx⟩ := sep_append_inj d1.reverse d2.reverse a.reverse b.reverse h1' h2' hrev
  constructor
  · exact List.reverse_injective hx
  · exact List.reverse_injective hd

theorem string_ext {a b : String} (h : a.data = b.data) : a = b := by
  cases a; cases b; simp_all

theorem header_tag_data (a : String) (k : Nat) :
    (a ++ "_" ++ natRepr k).data = a.data ++ '_' :: (natRepr k).data := by
  rw [String.data_append, String.data_append]
  simp

theorem header_tag_inj {a b : String} {k j : Nat}
    (h : a ++ "_" ++ natRepr k = b ++ "_" ++ natRepr j) : a = b ∧ k = j := by
  have hd := congrArg String.data h
  rw [header_tag_data, header_tag_data] at hd
  obtain ⟨h1, h2⟩ :=
    sep_append_inj_last (natRepr_no_underscore k) (natRepr_no_underscore j) hd
  refine ⟨string_ext h1, natRepr_inj (string_ext h2)⟩

theorem seenCount_dset_self (seen : List (String × Nat)) (h : String) (v : Nat) :
    seenCount (dset seen h v) h = v := by
  simp [seenCount, lookup_dset_self]

theorem seenCount_dset_ne (seen : List (String × Nat)) (h h' : String) (v : Nat)
    (hne : h ≠ h') : seenCount (dset seen h v) h' = seenCount seen h' := by
  simp [seenCount, lookup_dset_ne seen h h' v hne]

theorem dset_seen_wf (seen : List (String × Nat)) (k : String) (v : Nat)
    (hw : SeenWF seen) (hv : 1 ≤ v) : SeenWF (dset seen k v) :=
  values_dset (fun c => 1 ≤ c) seen k v hw hv

theorem makeUniqueHeadersAux_length : ∀ (hs : List String) (seen : List (String × Nat)),
    (makeUniqueHeadersAux seen hs).length = hs.length := by
  intro hs
  induction hs with
  | nil => intro seen; simp [makeUniqueHeadersAux]
  | cons h t ih =>
    intro seen
    cases hl : seen.lookup h with
    | some c => simp [makeUniqueHeadersAux, hl, ih]
    | none => simp [makeUniqueHeadersAux, hl, ih]

theorem mem_makeUniqueHeadersAux : ∀ (hs : List String) (seen : List (String × Nat)),
    SeenWF seen → ∀ x ∈ makeUniqueHeadersAux seen hs,
      (∃ h, h ∈ hs ∧ x = h ∧ seen.lookup h = none) ∨
      (∃ h k, h ∈ hs ∧ x = h ++ "_" ++ natRepr k ∧ 2 ≤ k ∧ seenCount seen h < k) := by
  intro hs
  induction hs with
  | nil => intro seen _ x hx; simp [makeUniqueHeadersAux] at hx
  | cons h t ih =>
    intro seen hwf x hx
    cases hl : seen.lookup h with
    | some c =>
      simp only [makeUniqueHeadersAux, hl] at hx
      have hc1 : 1 ≤ c := hwf (h, c) (lookup_mem seen h c hl)
      rcases List.mem_cons.1 hx with hx | hx
      · refine Or.inr ⟨h, c + 1, List.mem_cons_self h t, hx, by omega, ?_⟩
        simp [seenCount, hl]
      · have hwf' : SeenWF (dset seen h (c + 1)) := dset_seen_wf seen h (c + 1) hwf (by omega)
        rcases ih (dset seen h (c + 1)) hwf' x hx with ⟨h', ht', hx', hlook'⟩ |
          ⟨h', k, ht', hx', hk2, hcount⟩
        · have hne : h ≠ h' := by
            intro he; rw [← he, lookup_dset_self] at hlook'; exact Option.noConfusion hlook'
          rw [lookup_dset_ne seen h h' (c + 1) hne] at hlook'
          exact Or.inl ⟨h', List.mem_cons_of_mem h ht', hx', hlook'⟩
        · by_cases hne : h = h'
          · subst hne
            rw [seenCount_dset_self] at hcount
            refine Or.inr ⟨h, k, List.mem_cons_self h t, hx', hk2, ?_⟩
            simp [seenCount, hl]; omega
          · rw [seenCount_dset_ne seen h h' (c + 1) hne] at hcount
            exact Or.inr ⟨h', k, List.mem_cons_of_mem h ht', hx', hk2, hcount⟩
    | none =>
      simp only [makeUniqueHeadersAux, hl] at hx
      rcases List.mem_cons.1 hx with hx | hx
      · exact Or.inl ⟨h, List.mem_cons_self h t, hx, hl⟩
      · have hwf' : SeenWF (dset seen h 1) := dset_seen_wf seen h 1 hwf (by omega)
        rcases ih (dset seen h 1) hwf' x hx with ⟨h', ht', hx', hlook'⟩ |
          ⟨h', k, ht', hx', hk2, hcount⟩
        · have hne : h ≠ h' := by
            intro he; rw [← he, lookup_dset_self] at hlook'; exact Option.noConfusion hlook'
          rw [lookup_dset_ne seen h h' 1 hne] at hlook'
          exact Or.inl ⟨h', List.mem_cons_of_mem h ht', hx', hlook'⟩
        · by_cases hne : h = h'
          · subst hne
            refine Or.inr ⟨h, k, List.mem_cons_self h t, hx', hk2, ?_⟩
            rw [seenCount_dset_self] at hcount
            simp [seenCount, hl]; omega
          · rw [seenCount_dset_ne seen h h' 1 hne] at hcount
            exact Or.inr ⟨h', k, List.mem_cons_of_mem h ht', hx', hk2, hcount⟩

theorem makeUniqueHeadersAux_nodup : ∀ (hs : List String) (seen : List (String × Nat)),
    SeenWF seen →
    (∀ h1 ∈ hs, ∀ h2 ∈ hs, ∀ k : Nat, 2 ≤ k → h1 ≠ h2 ++ "_" ++ natRepr k) →
    (makeUniqueHeadersAux seen hs).Nodup := by
  intro hs
  induction hs with
  | nil => intro seen _ _; simp [makeUniqueHeadersAux]
  | cons h t ih =>
    intro seen hwf hcol
    have hcol' : ∀ h1 ∈ t, ∀ h2 ∈ t, ∀ k : Nat, 2 ≤ k → h1 ≠ h2 ++ "_" ++ natRepr k :=
      fun h1 h1m h2 h2m k hk =>
        hcol h1 (List.mem_cons_of_mem h h1m) h2 (List.mem_cons_of_mem h h2m) k hk
    cases hl : seen.lookup h with
    | some c =>
      simp only [makeUniqueHeadersAux, hl]
      have hc1 : 1 ≤ c := hwf (h, c) (lookup_mem seen h c hl)
      have hwf' : SeenWF (dset seen h (c + 1)) := dset_seen_wf seen h (c + 1) hwf (by omega)
      refine List.nodup_cons.2 ⟨?_, ih (dset seen h (c + 1)) hwf' hcol'⟩
      intro hmem
      rcases mem_makeUniqueHeadersAux t (dset seen h (c + 1)) hwf' _ hmem with
        ⟨h', ht', hx', _⟩ | ⟨h', k, ht', hx', hk2, hcount⟩
      · exact hcol h' (List.mem_cons_of_mem h ht') h (List.mem_cons_self h t) (c + 1)
          (by omega) hx'.symm
      · obtain ⟨heq, hkeq⟩ := header_tag_inj hx'
        rw [← heq, seenCount_dset_self] at hcount
        omega
    | none =>
      simp only [makeUniqueHeadersAux, hl]
      have hwf' : SeenWF (dset seen h 1) := dset_seen_wf seen h 1 hwf (by omega)
      refine List.nodup_cons.2 ⟨?_, ih (dset seen h 1) hwf' hcol'⟩
      intro hmem
      rcases mem_makeUniqueHeadersAux t (dset seen h 1) hwf' _ hmem with
        ⟨h', ht', hx', hlook'⟩ | ⟨h', k, ht', hx', hk2, _⟩
      · rw [hx', lookup_dset_self] at hlook'
        exact Option.noConfusion hlook'
      · exact hcol h (List.mem_cons_self h t) h' (List.mem_cons_of_mem h ht') k hk2 hx'

theorem make_unique_headers_nodup (hs : List String) (hcol : headerNoCollision hs) :
    (make_unique_headers hs).Nodup :=
  makeUniqueHeadersAux_nodup hs [] (by intro p hp; simp at hp) hcol

theorem make_unique_headers_length (hs : List String) :
    (make_unique_headers hs).length = hs.length :=
  makeUniqueHeadersAux_length hs []

theorem foldl_dset_map_fst {β : Type} (f : String × Nat → β) :
    ∀ (ps : List (String × Nat)) (init : List (String × β)),
      (init.map Prod.fst ++ ps.map Prod.fst).Nodup →
      (ps.foldl (fun d p => dset d p.1 (f p)) init).map Prod.fst
        = init.map Prod.fst ++ ps.map Prod.fst := by
  intro ps
  induction ps with
  | nil => intro init _; simp
  | cons p t ih =>
    intro init hnd
    simp only [List.foldl_cons]
    have hnotin : p.1 ∉ init.map Prod.fst := by
      intro hmem
      have hd := List.disjoint_of_nodup_append hnd
      exact hd hmem (by simp)
    have hset : (dset init p.1 (f p)).map Prod.fst = init.map Prod.fst ++ [p.1] := by
      rw [map_fst_dset]; simp [hnotin]
    have hnd' : ((dset init p.1 (f p)).map Prod.fst ++ t.map Prod.fst).Nodup := by
      rw [hset]
      have : init.map Prod.fst ++ [p.1] ++ t.map Prod.fst
          = init.map Prod.fst ++ (p.1 :: t.map Prod.fst) := by simp
      rw [this]
      simpa using hnd
    rw [ih (dset init p.1 (f p)) hnd', hset]
    simp

theorem buildRowFields_keys (headers : List String) (idxs : List Nat) (rowVals : List String)
    (hlen : headers.length ≤ idxs.length) (hnd : headers.Nodup) :
    (buildRowFields headers idxs rowVals).map Prod.fst = headers := by
  have hzip : (headers.zip idxs).map Prod.fst = headers := List.map_fst_zip headers idxs hlen
  unfold buildRowFields
  rw [foldl_dset_map_fst (fun p => pyStrip (rowVals.getD p.2 "")) (headers.zip idxs) []]
  · simpa using hzip
  · simpa [hzip] using hnd

theorem buildRows_map_row_idx (grid : Grid) (si : Nat) (sn tn : String)
    (headers : List String) (idxs : List Nat) :
    ∀ (rs : List Nat) (i : Nat),
      (buildRows grid si sn tn headers idxs rs i).map RowCtx.row_idx
        = List.range' i rs.length := by
  intro rs
  induction rs with
  | nil => intro i; simp [buildRows]
  | cons r t ih => intro i; simp [buildRows, mkRowCtx, ih, List.range'_succ]

theorem buildRows_map_excel_row (grid : Grid) (si : Nat) (sn tn : String)
    (headers : List String) (idxs : List Nat) :
    ∀ (rs : List Nat) (i : Nat),
      (buildRows grid si sn tn headers idxs rs i).map RowCtx.excel_row
        = rs.map (fun r => r + 1) := by
  intro rs
  induction rs with
  | nil => intro i; simp [buildRows]
  | cons r t ih => intro i; simp [buildRows, mkRowCtx, ih]

theorem buildRows_length (grid : Grid) (si : Nat) (sn tn : String)
    (headers : List String) (idxs : List Nat) :
    ∀ (rs : List Nat) (i : Nat),
      (buildRows grid si sn tn headers idxs rs i).length = rs.length := by
  intro rs
  induction rs with
  | nil => intro i; simp [buildRows]
  | cons r t ih => intro i; simp [buildRows, ih]

theorem buildRows_row (grid : Grid) (si : Nat) (sn tn : String)
    (headers : List String) (idxs : List Nat) :
    ∀ (rs : List Nat) (i : Nat) (c : RowCtx),
      c ∈ buildRows grid si sn tn headers idxs rs i →
      ∃ r0, c.row = buildRowFields headers idxs (grid.getD r0 []) := by
  intro rs
  induction rs with
  | nil => intro i c hc; simp [buildRows] at hc
  | cons r t ih =>
    intro i c hc
    simp only [buildRows, List.mem_cons] at hc
    rcases hc with hc | hc
    · exact ⟨r, by rw [hc]; simp [mkRowCtx]⟩
    · exact ih (i + 1) c hc

theorem tableLoop_eq (grid : Grid) (sheet_idx : Nat) (sheet_name tname : String)
    (headers : List String) (idxs : List Nat) (dropBlank : Bool) :
    ∀ (rs : List Nat) (acc : List RowCtx × Nat),
      rs.foldl
        (fun acc r0 =>
          let fields := buildRowFields headers idxs (grid.getD r0 [])
          if dropBlank && rowAllBlank fields then acc
          else
            (acc.1 ++ [{ sheet_idx := sheet_idx, sheet_name := sheet_name,
                         table := tname, excel_row := r0 + 1, row_idx := acc.2,
                         row := fields }],
             acc.2 + 1))
        acc
      = (acc.1 ++ buildRows grid sheet_idx sheet_name tname headers idxs
            (rs.filter (fun r0 =>
              !(dropBlank && rowAllBlank (buildRowFields headers idxs (grid.getD r0 []))))) acc.2,
         acc.2 + (rs.filter (fun r0 =>
              !(dropBlank && rowAllBlank (buildRowFields headers idxs (grid.getD r0 []))))).length) := by
  intro rs
  induction rs with
  | nil => intro acc; simp [buildRows]
  | cons r0 t ih =>
    intro acc
    simp only [List.foldl_cons, List.filter_cons]
    by_cases hk : dropBlank && rowAllBlank (buildRowFields headers idxs (grid.getD r0 []))
    · simp only [hk, Bool.not_true, if_neg, Bool.false_eq_true, reduceIte]
      rw [ih acc]
    · simp only [hk, Bool.not_false, if_pos, Bool.false_eq_true, reduceIte, if_neg]
      rw [ih]
      simp only [buildRows, mkRowCtx, Prod.mk.injEq]
      constructor
      · simp
      · simp only [List.length_cons]; omega

theorem range'_append_nat (s m n : Nat) :
    List.range' s m ++ List.range' (s + m) n = List.range' s (m + n) := by
  have h := List.range'_append s m n 1
  simpa [Nat.add_comm] using h

theorem foldl_fresh {α β : Type} (idx : α → Nat) (P : α → Prop)
    (step : List α × Nat → β → List α × Nat) :
    ∀ (l : List β) (acc : List α × Nat),
      (∀ (acc : List α × Nat) (b : β), b ∈ l → ∃ fresh,
        step acc b = (acc.1 ++ fresh, acc.2 + fresh.length) ∧
        fresh.map idx = List.range' acc.2 fresh.length ∧ ∀ c ∈ fresh, P c) →
      ∃ fresh,
        l.foldl step acc = (acc.1 ++ fresh, acc.2 + fresh.length) ∧
        fresh.map idx = List.range' acc.2 fresh.length ∧ ∀ c ∈ fresh, P c := by
  intro l
  induction l with
  | nil =>
    intro acc _
    refine ⟨[], ?_, by simp, by simp⟩
    obtain ⟨a1, a2⟩ := acc
    simp
  | cons b t ih =>
    intro acc hstep
    obtain ⟨f1, hf1, hm1, hp1⟩ := hstep acc b (List.mem_cons_self b t)
    obtain ⟨f2, hf2, hm2, hp2⟩ :=
      ih (acc.1 ++ f1, acc.2 + f1.length)
        (fun acc b hb => hstep acc b (List.mem_cons_of_mem _ hb))
    refine ⟨f1 ++ f2, ?_, ?_, ?_⟩
    · simp only [List.foldl_cons, hf1, hf2]
      simp [List.append_assoc, Nat.add_assoc]
    · simp only [List.map_append, List.length_append]
      rw [hm1]
      simp only [hm2]
      exact range'_append_nat acc.2 f1.length f2.length
    · intro c hc
      rcases List.mem_append.1 hc with hc | hc
      · exact hp1 c hc
      · exact hp2 c hc

/-- Row provenance: a row context's field dict was built from the
deduplicated headers of a successfully sliced spec. -/
def RowFromSpec (dU : Bool) (grid : Grid) (spec : TableSpec) (c : RowCtx) : Prop :=
  ∃ hr ds de r0, specBounds spec grid.length = some (hr, ds, de) ∧
    c.row = buildRowFields (make_unique_headers (specHeaderLabels dU grid hr))
      ((headerPairs dU (grid.getD hr [])).map (fun p => p.1)) (grid.getD r0 [])

theorem extractTable_eq_of_bounds (grid : Grid) (si : Nat) (sn : String) (ti : Nat)
    (spec : TableSpec) (dU dB : Bool) (start hr ds de : Nat)
    (hnote : noRecordNote spec = false)
    (hb : specBounds spec grid.length = some (hr, ds, de))
    (hp : headerPairs dU (grid.getD hr []) ≠ []) :
    extractTable grid si sn ti spec dU dB start
      = (buildRows grid si sn (tableNameOf spec ti)
           (make_unique_headers ((headerPairs dU (grid.getD hr [])).map (fun p => p.2)))
           ((headerPairs dU (grid.getD hr [])).map (fun p => p.1))
           ((List.range' ds (de + 1 - ds)).filter (fun r0 =>
             !(dB && rowAllBlank (buildRowFields
                 (make_unique_headers ((headerPairs dU (grid.getD hr [])).map (fun p => p.2)))
                 ((headerPairs dU (grid.getD hr [])).map (fun p => p.1))
                 (grid.getD r0 []))))) start,
         start + ((List.range' ds (de + 1 - ds)).filter (fun r0 =>
             !(dB && rowAllBlank (buildRowFields
                 (make_unique_headers ((headerPairs dU (grid.getD hr [])).map (fun p => p.2)))
                 ((headerPairs dU (grid.getD hr [])).map (fun p => p.1))
                 (grid.getD r0 []))))).length) := by
  unfold extractTable
  rw [hnote, hb]
  simp only [Bool.false_eq_true, if_neg, reduceIte, if_neg hp]
  rw [tableLoop_eq]
  simp

theorem extractTable_fresh (grid : Grid) (si : Nat) (sn : String) (ti : Nat)
    (spec : TableSpec) (dU dB : Bool) (start : Nat) :
    ∃ fresh, extractTable grid si sn ti spec dU dB start = (fresh, start + fresh.length) ∧
      fresh.map RowCtx.row_idx = List.range' start fresh.length ∧
      ∀ c ∈ fresh, RowFromSpec dU grid spec c := by
  by_cases hnote : noRecordNote spec
  · refine ⟨[], ?_, by simp, by simp⟩
    unfold extractTable
    rw [hnote]
    simp
  · rw [Bool.not_eq_true] at hnote
    cases hb : specBounds spec grid.length with
    | none =>
      refine ⟨[], ?_, by simp, by simp⟩
      unfold extractTable
      rw [hnote, hb]
      simp
    | some b =>
      obtain ⟨hr, ds, de⟩ := b
      by_cases hp : headerPairs dU (grid.getD hr []) = []
      · refine ⟨[], ?_, by simp, by simp⟩
        unfold extractTable
        rw [hnote, hb]
        simp only [Bool.false_eq_true, if_neg, reduceIte, if_pos hp]
        simp
      · rw [extractTable_eq_of_bounds grid si sn ti spec dU dB start hr ds de hnote hb hp]
        refine ⟨buildRows grid si sn (tableNameOf spec ti)
            (make_unique_headers ((headerPairs dU (grid.getD hr [])).map (fun p => p.2)))
            ((headerPairs dU (grid.getD hr [])).map (fun p => p.1))
            ((List.range' ds (de + 1 - ds)).filter (fun r0 =>
               !(dB && rowAllBlank (buildRowFields
                   (make_unique_headers ((headerPairs dU (grid.getD hr [])).map (fun p => p.2)))
                   ((headerPairs dU (grid.getD hr [])).map (fun p => p.1))
                   (grid.getD r0 []))))) start, ?_, ?_, ?_⟩
        · rw [buildRows_length]
        · rw [buildRows_map_row_idx, buildRows_length]
        · intro c hc
          obtain ⟨r0, hr0⟩ := buildRows_row _ _ _ _ _ _ _ _ _ hc
          exact ⟨hr, ds, de, r0, hb, hr0⟩

theorem mem_enumFrom_snd {α : Type} : ∀ (l : List α) (n : Nat) (p : Nat × α),
    p ∈ l.enumFrom n → p.2 ∈ l := by
  intro l
  induction l with
  | nil => intro n p hp; simp [List.enumFrom] at hp
  | cons a t ih =>
    intro n p hp
    simp only [List.enumFrom, List.mem_cons] at hp
    rcases hp with hp | hp
    · rw [hp]; exact List.mem_cons_self a t
    · exact List.mem_cons_of_mem a (ih (n + 1) p hp)

theorem mem_enum_snd {α : Type} (l : List α) (p : Nat × α) (hp : p ∈ l.enum) : p.2 ∈ l :=
  mem_enumFrom_snd l 0 p hp

theorem extractSheet_fresh (grid : Grid) (si : Nat) (sn : String)
    (specs : List TableSpec) (dU dB : Bool) (start : Nat) :
    ∃ fresh, extractSheet grid si sn specs dU dB start = (fresh, start + fresh.length) ∧
      fresh.map RowCtx.row_idx = List.range' start fresh.length ∧
      ∀ c ∈ fresh, ∃ spec, spec ∈ specs ∧ RowFromSpec dU grid spec c := by
  unfold extractSheet
  by_cases hg : grid.length = 0
  · refine ⟨[], ?_, by simp, by simp⟩
    simp [hg]
  · simp only [hg, if_neg, reduceIte]
    obtain ⟨fresh, h1, h2, h3⟩ :=
      foldl_fresh RowCtx.row_idx
        (fun c => ∃ spec, spec ∈ specs ∧ RowFromSpec dU grid spec c)
        (fun (acc : List RowCtx × Nat) (p : Nat × TableSpec) =>
          ((acc.1 ++ (extractTable grid si sn p.1 p.2 dU dB acc.2).1,
            (extractTable grid si sn p.1 p.2 dU dB acc.2).2) : List RowCtx × Nat))
        specs.enum ([], start)
        (by
          intro acc p hp
          obtain ⟨f, hf, hm, hprov⟩ := extractTable_fresh grid si sn p.1 p.2 dU dB acc.2
          refine ⟨f, ?_, hm, ?_⟩
          · dsimp only
            rw [hf]
          · intro c hc
            exact ⟨p.2, mem_enum_snd specs p hp, hprov c hc⟩)
    refine ⟨fresh, ?_, by simpa using h2, h3⟩
    exact (by simpa using h1 :
      specs.enum.foldl
        (fun (acc : List RowCtx × Nat) (p : Nat × TableSpec) =>
          ((acc.1 ++ (extractTable grid si sn p.1 p.2 dU dB acc.2).1,
            (extractTable grid si sn p.1 p.2 dU dB acc.2).2) : List RowCtx × Nat))
        ([], start) = (fresh, start + fresh.length))

theorem extract_rows_fresh (sheets : List (String × Grid))
    (specsBySheet : List (String × List TableSpec)) (dU dB : Bool) :
    ∃ fresh, extract_rows_using_specs sheets specsBySheet dU dB = fresh ∧
      fresh.map RowCtx.row_idx = List.range' 0 fresh.length ∧
      ∀ c ∈ fresh, ∃ p, p ∈ sheets ∧ ∃ spec,
        spec ∈ (specsBySheet.lookup p.1).getD [] ∧ RowFromSpec dU p.2 spec c := by
  unfold extract_rows_using_specs
  obtain ⟨fresh, h1, h2, h3⟩ :=
    foldl_fresh RowCtx.row_idx
      (fun c => ∃ p, p ∈ sheets ∧ ∃ spec,
        spec ∈ (specsBySheet.lookup p.1).getD [] ∧ RowFromSpec dU p.2 spec c)
      (fun (acc : List RowCtx × Nat) (p : Nat × (String × Grid)) =>
        if (specsBySheet.lookup p.2.1).getD [] = [] then acc
        else
          ((acc.1 ++ (extractSheet p.2.2 p.1 p.2.1 ((specsBySheet.lookup p.2.1).getD [])
              dU dB acc.2).1,
            (extractSheet p.2.2 p.1 p.2.1 ((specsBySheet.lookup p.2.1).getD [])
              dU dB acc.2).2) : List RowCtx × Nat))
      sheets.enum ([], 0)
      (by
        intro acc p hp
        by_cases hsp : (specsBySheet.lookup p.2.1).getD [] = []
        · refine ⟨[], ?_, by simp, by simp⟩
          obtain ⟨a1, a2⟩ := acc
          simp [hsp]
        · obtain ⟨f, hf, hm, hprov⟩ :=
            extractSheet_fresh p.2.2 p.1 p.2.1 ((specsBySheet.lookup p.2.1).getD []) dU dB acc.2
          refine ⟨f, ?_, hm, ?_⟩
          · dsimp only
            rw [if_neg hsp, hf]
          · intro c hc
            obtain ⟨spec, hspec, hrow⟩ := hprov c hc
            exact ⟨p.2, mem_enum_snd sheets p hp, spec, hspec, hrow⟩)
  refine ⟨fresh, ?_, by simpa using h2, h3⟩
  exact congrArg Prod.fst (by simpa using h1 :
    sheets.enum.foldl
      (fun (acc : List RowCtx × Nat) (p : Nat × (String × Grid)) =>
        if (specsBySheet.lookup p.2.1).getD [] = [] then acc
        else
          ((acc.1 ++ (extractSheet p.2.2 p.1 p.2.1 ((specsBySheet.lookup p.2.1).getD [])
              dU dB acc.2).1,
            (extractSheet p.2.2 p.1 p.2.1 ((specsBySheet.lookup p.2.1).getD [])
              dU dB acc.2).2) : List RowCtx × Nat))
      ([], 0) = (fresh, 0 + fresh.length))

/-- C10: across a whole extraction run — all sheets, all tables, skipped
specs, dropped blank rows included — the emitted `row_idx` values are
exactly 0, 1, ..., n-1 in output order: consecutive, gap-free, and unique,
hence strictly increasing across the run. -/
theorem C10_row_idx_consecutive (sheets : List (String × Grid))
    (specsBySheet : List (String × List TableSpec)) (dU dB : Bool) :
    (extract_rows_using_specs sheets specsBySheet dU dB).map RowCtx.row_idx
      = List.range (extract_rows_using_specs sheets specsBySheet dU dB).length := by
  obtain ⟨fresh, h1, h2, _⟩ := extract_rows_fresh sheets specsBySheet dU dB
  rw [h1, h2, List.range_eq_range']

theorem no_underscore_no_collision (hs : List String)
    (h : ∀ x ∈ hs, '_' ∉ x.data) : headerNoCollision hs := by
  intro h1 hm1 h2 _ k _ he
  have : '_' ∈ h1.data := by
    rw [he, header_tag_data]
    exact List.mem_append.2 (Or.inr (List.mem_cons_self _ _))
  exact h h1 hm1 this

/-- C2 (counterexample): with headers `["Date", "Date", "Date_2"]` the
running-counter renaming produces `["Date", "Date_2", "Date_2"]` — not
pairwise distinct — and the sliced RowContext's field dict silently merges
the two columns named `Date_2` (the middle column's value is lost), so its
key list is not the renamed header list. -/
theorem C2_counterexample :
    make_unique_headers ["Date", "Date", "Date_2"] = ["Date", "Date_2", "Date_2"] ∧
    ¬ (make_unique_headers ["Date", "Date", "Date_2"]).Nodup ∧
    (extract_rows_using_specs [("S", [["Date", "Date", "Date_2"], ["a", "b", "c"]])]
        [("S", [{ header_row := some 1, data_start := some 2, data_end := some 2,
                  note := none, table := none }])] true true).map RowCtx.row
      = [[("Date", "a"), ("Date_2", "c")]] := by
  refine ⟨by decide, by decide, ?_⟩
  decide

/-- C2 (amended): duplicate header labels are renamed by suffixing a running
counter (first occurrence unchanged, second `label_2`, third `label_3`, ...);
provided no header label itself equals another label suffixed with an
underscore and a counter ≥ 2 (a literal `Date_2` next to duplicate `Date`s
defeats the scheme), the renamed list is pairwise distinct and slicing never
yields a RowContext whose field map has two identical keys. -/
theorem C2_amended_header_uniqueness :
    (∀ hs : List String, headerNoCollision hs → (make_unique_headers hs).Nodup)
    ∧ make_unique_headers ["Date", "Date", "Amount"] = ["Date", "Date_2", "Amount"]
    ∧ (∀ (sheets : List (String × Grid)) (specsBySheet : List (String × List TableSpec))
        (dU dB : Bool),
        (∀ p ∈ sheets, ∀ spec ∈ (specsBySheet.lookup p.1).getD [],
          ∀ b : Nat × Nat × Nat, specBounds spec p.2.length = some b →
            headerNoCollision (specHeaderLabels dU p.2 b.1)) →
        ∀ c ∈ extract_rows_using_specs sheets specsBySheet dU dB,
          (c.row.map Prod.fst).Nodup) := by
  refine ⟨make_unique_headers_nodup, by decide, ?_⟩
  intro sheets specsBySheet dU dB H c hc
  obtain ⟨fresh, h1, _, h3⟩ := extract_rows_fresh sheets specsBySheet dU dB
  rw [h1] at hc
  obtain ⟨p, hpmem, spec, hsmem, hr, ds, de, r0, hb, hrow⟩ := h3 c hc
  have hcol : headerNoCollision (specHeaderLabels dU p.2 hr) :=
    H p hpmem spec hsmem (hr, ds, de) hb
  have hnd : (make_unique_headers (specHeaderLabels dU p.2 hr)).Nodup :=
    make_unique_headers_nodup _ hcol
  rw [hrow]
  rw [buildRowFields_keys]
  · exact hnd
  · rw [make_unique_headers_length]
    unfold specHeaderLabels
    simp
  · exact hnd

/-- Witness for C2's amended theorem at a concrete collision-free input. -/
theorem C2_amended_witness :
    (make_unique_headers ["Date", "Date", "Amount"]).Nodup ∧
    ∀ c ∈ extract_rows_using_specs [("S", [["Date", "Date", "Amount"], ["1", "2", "3"]])]
        [("S", [{ header_row := some 1, data_start := some 2, data_end := some 2,
                  note := none, table := none }])] true true,
      (c.row.map Prod.fst).Nodup := by
  constructor
  · exact C2_amended_header_uniqueness.1 ["Date", "Date", "Amount"]
      (no_underscore_no_collision _ (by decide))
  · exact C2_amended_header_uniqueness.2.2 _ _ true true
      (by
        intro p hp spec hspec b hb
        simp only [List.mem_singleton] at hp
        subst hp
        simp only [List.lookup, List.getD, beq_self_eq_true, Option.getD_some,
          List.mem_singleton] at hspec
        subst hspec
        have he : specBounds (TableSpec.mk (some 1) (some 2) (some 2) none none) (2 : Nat)
            = some ((0 : Nat), (1 : Nat), (1 : Nat)) := by
          decide
        have hb2 : b = (0, 1, 1) := by
          have h := hb.symm.trans he
          exact Option.some.inj h
        subst hb2
        apply no_underscore_no_collision
        intro x hx
        have hlab : specHeaderLabels true [["Date", "Date", "Amount"], ["1", "2", "3"]] 0
            = ["Date", "Date", "Amount"] := by decide
        rw [hlab] at hx
        fin_cases hx <;> decide)

theorem extract_single (name : String) (grid : Grid) (spec : TableSpec) (dU dB : Bool)
    (hg : grid.length ≠ 0) :
    extract_rows_using_specs [(name, grid)] [(name, [spec])] dU dB
      = (extractTable grid 0 name 0 spec dU dB 0).1 := by
  have hg2 : grid ≠ [] := by
    intro h
    rw [h] at hg
    exact hg rfl
  unfold extract_rows_using_specs extractSheet
  simp [List.lookup, List.enum, List.enumFrom, hg, hg2]

theorem filter_shift_map (P : Nat → Bool) :
    (([4, 5, 6].filter P).map (fun r => r + 1)) = [5, 6, 7].filter (fun r => P (r - 1)) := by
  cases hP4 : P 4 <;> cases hP5 : P 5 <;> cases hP6 : P 6 <;>
    norm_num [List.filter, hP4, hP5, hP6]

/-- C9 (amended): for an in-bounds spec with `data_start=5`, `data_end=7`
whose filtered header set is non-empty, the emitted RowContexts carry
exactly the original 1-based row numbers among 5, 6, 7 that survive the
blank-row filter, in that order; row numbers are never shifted.  When
blank-row filtering is disabled they are exactly 5, 6, 7. -/
theorem C9_amended_row_numbers (name : String) (grid : Grid) (hrow : Int) (dU dB : Bool)
    (h1 : 1 ≤ hrow) (h2 : hrow ≤ (grid.length : Int)) (h7 : 7 ≤ grid.length)
    (hp : headerPairs dU (grid.getD (hrow - 1).toNat []) ≠ []) :
    ((extract_rows_using_specs [(name, grid)]
        [(name, [TableSpec.mk (some hrow) (some 5) (some 7) none none])] dU dB).map
        RowCtx.excel_row
      = [5, 6, 7].filter (keptRow grid dU (hrow - 1).toNat dB))
    ∧ (dB = false →
      (extract_rows_using_specs [(name, grid)]
          [(name, [TableSpec.mk (some hrow) (some 5) (some 7) none none])] dU dB).map
          RowCtx.excel_row = [5, 6, 7]) := by
  have hg : grid.length ≠ 0 := by omega
  have hmain : (extract_rows_using_specs [(name, grid)]
      [(name, [TableSpec.mk (some hrow) (some 5) (some 7) none none])] dU dB).map
      RowCtx.excel_row
      = [5, 6, 7].filter (keptRow grid dU (hrow - 1).toNat dB) := by
    rw [extract_single name grid _ dU dB hg]
    have hnote : noRecordNote (TableSpec.mk (some hrow) (some 5) (some 7) none none) = false := by
      rfl
    have hb : specBounds (TableSpec.mk (some hrow) (some 5) (some 7) none none) grid.length
        = some ((hrow - 1).toNat, 4, 6) := by
      unfold specBounds
      dsimp only
      have c1 : ¬(hrow - 1 < 0 ∨ (5 : Int) - 1 < 0 ∨ (7 : Int) - 1 < (5 : Int) - 1) := by omega
      have c2 : ¬((grid.length : Int) ≤ hrow - 1 ∨ (grid.length : Int) ≤ (5 : Int) - 1) := by
        push_cast
        omega
      rw [if_neg c1, if_neg c2]
      have hmin : min ((7 : Int) - 1) ((grid.length : Int) - 1) = 6 := by
        have : (6 : Int) ≤ (grid.length : Int) - 1 := by push_cast; omega
        omega
      rw [hmin]
      norm_num
      decide
    rw [extractTable_eq_of_bounds grid 0 name 0 _ dU dB 0 ((hrow - 1).toNat) 4 6 hnote hb hp]
    rw [buildRows_map_excel_row]
    have hr3 : List.range' 4 (6 + 1 - 4) = [4, 5, 6] := rfl
    rw [hr3]
    rw [filter_shift_map]
    apply List.filter_congr
    intro r hr
    fin_cases hr <;> simp [keptRow]
  refine ⟨hmain, fun hdb => ?_⟩
  rw [hmain]
  apply List.filter_eq_self.2
  intro r _
  simp [keptRow, hdb]

/-- Witness for C9's amended theorem at a concrete grid with a blank row 6:
with filtering enabled the emitted rows are 5 and 7; with filtering disabled
they are 5, 6, 7. -/
theorem C9_amended_witness :
    ((extract_rows_using_specs [("S", [["H"], ["x"], ["x"], ["x"], ["a"], [""], ["b"]])]
        [("S", [TableSpec.mk (some 1) (some 5) (some 7) none none])] true true).map
        RowCtx.excel_row
      = [5, 6, 7].filter (keptRow [["H"], ["x"], ["x"], ["x"], ["a"], [""], ["b"]] true 0 true))
    ∧ ((extract_rows_using_specs [("S", [["H"], ["x"], ["x"], ["x"], ["a"], [""], ["b"]])]
        [("S", [TableSpec.mk (some 1) (some 5) (some 7) none none])] true false).map
        RowCtx.excel_row = [5, 6, 7]) := by
  constructor
  · exact (C9_amended_row_numbers "S" [["H"], ["x"], ["x"], ["x"], ["a"], [""], ["b"]] 1
      true true (by decide) (by decide) (by decide) (by decide)).1
  · exact (C9_amended_row_numbers "S" [["H"], ["x"], ["x"], ["x"], ["a"], [""], ["b"]] 1
      true false (by decide) (by decide) (by decide) (by decide)).2 rfl

/-- C9 (counterexample): on a grid whose row 6 is blank, slicing the spec
`data_start=5, data_end=7` with blank-row filtering enabled emits row
numbers 5 and 7 only — not 5, 6, 7 — so the emitted numbers are not
independent of blank-row filtering. -/
theorem C9_counterexample :
    (extract_rows_using_specs [("S", [["H"], ["x"], ["x"], ["x"], ["a"], [""], ["b"]])]
        [("S", [TableSpec.mk (some 1) (some 5) (some 7) none none])] true true).map
        RowCtx.excel_row = [5, 7]
    ∧ ([5, 7] : List Nat) ≠ [5, 6, 7] := by
  refine ⟨by decide, by decide⟩

theorem insertLoop_trace_shape (oracle : Nat → DbOutcome) :
    ∀ (rem a : Nat) (le : Bool), ∃ m, m ≤ rem ∧ (insertLoop oracle rem a le).2 = gwTrace a m := by
  intro rem
  induction rem with
  | zero =>
    intro a le
    exact ⟨0, Nat.le_refl 0, by simp [insertLoop, gwTrace]⟩
  | succ r ih =>
    intro a le
    cases ho : oracle a with
    | ok n => exact ⟨1, by omega, by simp [insertLoop, ho, gwTrace]⟩
    | otherErr => exact ⟨1, by omega, by simp [insertLoop, ho, gwTrace]⟩
    | opErr =>
      by_cases hr : r = 0
      · exact ⟨1, by omega, by simp [insertLoop, ho, hr, gwTrace]⟩
      · obtain ⟨m, hm, ht⟩ := ih (a + 1) true
        refine ⟨m + 1, by omega, ?_⟩
        simp [insertLoop, ho, hr, gwTrace, ht]

theorem insertLoop_allOp (oracle : Nat → DbOutcome)
    (hall : ∀ i, oracle i = .opErr) :
    ∀ (rem a : Nat) (le : Bool), 1 ≤ rem → (insertLoop oracle rem a le).1 = .raisedOp := by
  intro rem
  induction rem with
  | zero => intro a le h; omega
  | succ r ih =>
    intro a le _
    by_cases hr : r = 0
    · simp [insertLoop, hall a, hr]
    · have h1 : 1 ≤ r := by omega
      simp [insertLoop, hall a, hr, ih (a + 1) true h1]

/-- C7: the batch inserter returns 0 on an empty batch without touching the
pool; otherwise it makes at most `1 + db_retry` attempts (for `db_retry ≥ 0`),
every attempt's gateway is released (the trace is a sequence of
acquire/release pairs on every path); a non-operational error on the first
attempt propagates immediately with no second attempt; when every attempt
fails with an operational error the final one is raised; an operational
error followed by a success is retried and returns the row count. -/
theorem C7_insert_batch :
    (∀ (db_retry : Int) (oracle : Nat → DbOutcome),
      insert_batch 0 db_retry oracle = (.ret 0, []))
    ∧ (∀ (len : Nat) (db_retry : Int) (oracle : Nat → DbOutcome),
      ∃ m, (insert_batch len db_retry oracle).2 = gwTrace 1 m ∧
        ((0 : Int) ≤ db_retry → (m : Int) ≤ 1 + db_retry))
    ∧ (∀ (len : Nat) (db_retry : Int) (oracle : Nat → DbOutcome), len ≠ 0 →
      oracle 1 = .otherErr →
      insert_batch len db_retry oracle = (.raisedOther, [.acquire 1, .release 1]))
    ∧ (∀ (len : Nat) (db_retry : Int) (oracle : Nat → DbOutcome), len ≠ 0 →
      (∀ i, oracle i = .opErr) → (insert_batch len db_retry oracle).1 = .raisedOp)
    ∧ (∀ (len : Nat) (db_retry : Int) (oracle : Nat → DbOutcome) (n : Nat), len ≠ 0 →
      1 ≤ db_retry → oracle 1 = .opErr → oracle 2 = .ok n →
      (insert_batch len db_retry oracle).1 = .ret n) := by
  refine ⟨?_, ?_, ?_, ?_, ?_⟩
  · intro r o
    simp [insert_batch]
  · intro len r o
    by_cases hl : len = 0
    · refine ⟨0, ?_, ?_⟩
      · simp [insert_batch, hl, gwTrace]
      · intro h
        omega
    · obtain ⟨m, hm, ht⟩ := insertLoop_trace_shape o (1 + (max 0 r).toNat) 1 false
      refine ⟨m, ?_, ?_⟩
      · simp [insert_batch, hl, ht]
      · intro h
        omega
  · intro len r o hl ho1
    have hcomm : 1 + (max 0 r).toNat = (max 0 r).toNat + 1 := Nat.add_comm 1 _
    simp [insert_batch, hl, hcomm, insertLoop, ho1]
  · intro len r o hl hall
    have h1 : 1 ≤ 1 + (max 0 r).toNat := by omega
    simp [insert_batch, hl, insertLoop_allOp o hall _ 1 false h1]
  · intro len r o n hl hr ho1 ho2
    obtain ⟨t, ht⟩ : ∃ t, (max 0 r).toNat = t + 1 := ⟨(max 0 r).toNat - 1, by omega⟩
    have hcomm : 1 + (max 0 r).toNat = (t + 1) + 1 := by omega
    simp [insert_batch, hl, hcomm, insertLoop, ho1, ho2]

/-- Witness for C7 at concrete inputs: a 3-record batch with one retried
operational failure then success, under `db_retry = 1`. -/
theorem C7_insert_batch_witness :
    insert_batch 0 1 (fun _ => .ok 5) = (.ret 0, [])
    ∧ insert_batch 3 1 (fun _ => .otherErr) = (.raisedOther, [.acquire 1, .release 1])
    ∧ (insert_batch 3 1 (fun _ => .opErr)).1 = .raisedOp
    ∧ (insert_batch 3 1 (fun i => if i = 1 then .opErr else .ok 3)).1 = .ret 3 := by
  refine ⟨C7_insert_batch.1 1 (fun _ => .ok 5), ?_, ?_, ?_⟩
  · exact C7_insert_batch.2.2.1 3 1 (fun _ => .otherErr) (by decide) rfl
  · exact C7_insert_batch.2.2.2.1 3 1 (fun _ => .opErr) (by decide) (fun i => rfl)
  · exact C7_insert_batch.2.2.2.2 3 1 (fun i => if i = 1 then .opErr else .ok 3) 3
      (by decide) (by decide) rfl rfl

/-- C3 (counterexample): a message with no eligible attachments is counted
as skipped but only recorded in the per-run in-memory set; it is not marked
read (`markedRead` stays empty), and the very next poll lists and processes
(skips) it again — contradicting "never processed again by any later poll". -/
theorem C3_counterexample :
    (poll ⟨true, true⟩ [] [Msg.mk "m1" false [] (.ok 0) false false none]).emails_skipped = 1
    ∧ (poll ⟨true, true⟩ [] [Msg.mk "m1" false [] (.ok 0) false false none]).markedRead = []
    ∧ (poll ⟨true, true⟩
        (poll ⟨true, true⟩ [] [Msg.mk "m1" false [] (.ok 0) false false none]).markedRead
        [Msg.mk "m1" false [] (.ok 0) false false none]).emails_skipped = 1 := by
  refine ⟨rfl, rfl, rfl⟩

/-- C3 (amended): a message with no eligible attachments is counted as
skipped and added to the per-run in-memory seen set — so it is not
re-examined within the same run — but it is not marked read, and the
counters, read markers, and alert log are otherwise untouched; a message
already in the seen set is skipped over with no state change at all. -/
theorem C3_amended_skip_behavior :
    (∀ (cfg : NotifyCfg) (st : RunState) (m : Msg),
      m.mid ∉ st.processedSet → m.fetchErr = false → m.attachments = [] →
      processMessage cfg st m =
        { st with emails_skipped := st.emails_skipped + 1,
                  processedSet := st.processedSet ++ [m.mid] })
    ∧ (∀ (cfg : NotifyCfg) (st : RunState) (m : Msg),
      m.mid ∈ st.processedSet → processMessage cfg st m = st) := by
  constructor
  · intro cfg st m hmem hferr hatt
    simp [processMessage, hmem, hferr, hatt]
  · intro cfg st m hmem
    simp [processMessage, hmem]

/-- Witness for C3's amended theorem at a concrete no-attachment message. -/
theorem C3_amended_witness :
    processMessage ⟨true, true⟩ initialRunState (Msg.mk "m1" false [] (.ok 0) false false none)
      = { initialRunState with emails_skipped := 1, processedSet := ["m1"] }
    ∧ processMessage ⟨true, true⟩
        { initialRunState with emails_skipped := 1, processedSet := ["m1"] }
        (Msg.mk "m1" false [] (.ok 0) false false none)
      = { initialRunState with emails_skipped := 1, processedSet := ["m1"] } := by
  constructor
  · exact C3_amended_skip_behavior.1 ⟨true, true⟩ initialRunState
      (Msg.mk "m1" false [] (.ok 0) false false none) (by decide) rfl rfl
  · exact C3_amended_skip_behavior.2 ⟨true, true⟩
      { initialRunState with emails_skipped := 1, processedSet := ["m1"] }
      (Msg.mk "m1" false [] (.ok 0) false false none) (by decide)

/-- C4: a fetched message with attachments whose ingestion returns zero rows
is treated as a failure: the failed count is incremented, an alert send is
attempted exactly when alerting is configured, the message is neither marked
read nor added to the seen set, the outcome does not depend on whether the
alert send itself fails (the exception is caught and only logged), and a
later poll lists and processes the message again (failing again). -/
theorem C4_zero_inserted_failure :
    ∀ (cfg : NotifyCfg) (st : RunState) (m : Msg),
      m.mid ∉ st.processedSet → m.fetchErr = false → m.attachments ≠ [] →
      m.ingest = .ok 0 →
      (processMessage cfg st m = failState cfg st m
       ∧ (processMessage cfg st m).emails_failed = st.emails_failed + 1
       ∧ (processMessage cfg st m).processedSet = st.processedSet
       ∧ (processMessage cfg st m).markedRead = st.markedRead
       ∧ (processMessage cfg st m).alerted
           = (if cfg.alertEnabled then st.alerted ++ [m.mid] else st.alerted)
       ∧ (∀ b, processMessage cfg st { m with alertFails := b } = processMessage cfg st m)
       ∧ (poll cfg (poll cfg [] [m]).markedRead [m]).emails_failed = 1) := by
  intro cfg st m hmem hferr hatt hing
  have hmain : ∀ (st : RunState), m.mid ∉ st.processedSet →
      processMessage cfg st m = failState cfg st m := by
    intro st hmem
    simp [processMessage, hmem, hferr, hatt, hing]
  refine ⟨hmain st hmem, ?_, ?_, ?_, ?_, ?_, ?_⟩
  · rw [hmain st hmem]; simp [failState]
  · rw [hmain st hmem]; simp [failState]
  · rw [hmain st hmem]; simp [failState]
  · rw [hmain st hmem]
    by_cases ha : cfg.alertEnabled <;> simp [failState, ha]
  · intro b
    have hmain2 : processMessage cfg st { m with alertFails := b }
        = failState cfg st { m with alertFails := b } := by
      simp [processMessage, hmem, hferr, hatt, hing]
    rw [hmain2, hmain st hmem]
    simp [failState]
  · have h1 : poll cfg [] [m] = failState cfg initialRunState m := by
      unfold poll runOnceMsgs
      simp only [List.filter, List.not_mem_nil, decide_not, List.foldl]
      rw [hmain initialRunState (by simp [initialRunState])]
    rw [h1]
    have h2 : (failState cfg initialRunState m).markedRead = [] := by simp [failState, initialRunState]
    rw [h2]
    unfold poll runOnceMsgs
    simp only [List.filter, List.not_mem_nil, decide_not, List.foldl]
    rw [hmain initialRunState (by simp [initialRunState])]
    simp [failState, initialRunState]

/-- Witness for C4 at a concrete zero-row ingestion. -/
theorem C4_zero_inserted_witness :
    processMessage ⟨true, true⟩ initialRunState
        (Msg.mk "m2" false ["r.xlsx"] (.ok 0) true false none)
      = failState ⟨true, true⟩ initialRunState
          (Msg.mk "m2" false ["r.xlsx"] (.ok 0) true false none)
    ∧ (poll ⟨true, true⟩
        (poll ⟨true, true⟩ [] [Msg.mk "m2" false ["r.xlsx"] (.ok 0) true false none]).markedRead
        [Msg.mk "m2" false ["r.xlsx"] (.ok 0) true false none]).emails_failed = 1 := by
  constructor
  · exact (C4_zero_inserted_failure ⟨true, true⟩ initialRunState
      (Msg.mk "m2" false ["r.xlsx"] (.ok 0) true false none)
      (by decide) rfl (by decide) rfl).1
  · exact (C4_zero_inserted_failure ⟨true, true⟩ initialRunState
      (Msg.mk "m2" false ["r.xlsx"] (.ok 0) true false none)
      (by decide) rfl (by decide) rfl).2.2.2.2.2.2

/-- C5: normalisation drops a record (returns none, not an error) if and
only if all six signal fields of the final record are null or
whitespace-only; and the drop decision depends on nothing but those six
fields. -/
theorem C5_drop_gate :
    (∀ (obj : AiResp) (row : List (String × Value)) (si : Nat) (bn fn : Option String)
      (cid : Option Int) (now : Nat),
      (ai_transform_one_row_to_db_record obj row si bn fn cid now = none ↔
        ∀ k ∈ signalKeys, is_blank_value (dget (finalRec obj row si bn fn cid now) k) = true))
    ∧ (∀ r q : Rec, (∀ k ∈ signalKeys, dget r k = dget q k) →
        should_drop_record r = should_drop_record q) := by
  constructor
  · intro obj row si bn fn cid now
    unfold ai_transform_one_row_to_db_record
    by_cases hd : should_drop_record (finalRec obj row si bn fn cid now)
    · simp only [hd, if_pos]
      unfold should_drop_record at hd
      rw [List.all_eq_true] at hd
      simpa using hd
    · simp only [hd, Bool.false_eq_true, if_neg, reduceIte]
      unfold should_drop_record at hd
      rw [Bool.not_eq_true, List.all_eq_false] at hd
      obtain ⟨k, hk, hnb⟩ := hd
      constructor
      · intro h
        exact absurd h (by simp)
      · intro h
        exact absurd (h k hk) (by simp [hnb])
  · intro r q h
    unfold should_drop_record
    simp only [signalKeys, List.all_cons, List.all_nil]
    rw [h "description" (by decide), h "custody_account" (by decide),
      h "trade_date" (by decide), h "amount" (by decide), h "quantity" (by decide),
      h "amount_sign" (by decide)]

/-- Witness for C5: a record kept because its description is non-blank, and
the drop gate's indifference to a non-signal field. -/
theorem C5_drop_gate_witness :
    (ai_transform_one_row_to_db_record (.dict [("description", .str "fee")]) [] 0
        none none none 0 = none ↔
      ∀ k ∈ signalKeys, is_blank_value
        (dget (finalRec (.dict [("description", .str "fee")]) [] 0 none none none 0) k) = true)
    ∧ should_drop_record [("description", .str "x")]
        = should_drop_record [("description", .str "x"), ("currency", .str "USD")] := by
  constructor
  · exact C5_drop_gate.1 (.dict [("description", .str "fee")]) [] 0 none none none 0
  · exact C5_drop_gate.2 [("description", .str "x")]
      [("description", .str "x"), ("currency", .str "USD")] (by decide)

theorem lookup_map_pairs (f : String → Value) :
    ∀ (l : List String) (k : String),
      ((l.map (fun c => (c, f c))).lookup k) = if k ∈ l then some (f k) else none := by
  intro l
  induction l with
  | nil => intro k; simp
  | cons c t ih =>
    intro k
    simp only [List.map_cons, List.lookup]
    by_cases hk : k = c
    · subst hk
      simp
    · have : (k == c) = false := by simp [hk]
      simp only [this, Bool.false_eq_true, if_neg, reduceIte, ih k, List.mem_cons]
      by_cases hm : k ∈ t
      · simp [hm]
      · simp [hm, hk]

theorem map_fst_sanitize (obj : AiResp) :
    (sanitize_ai_record obj).map Prod.fst = outputCols := by
  cases obj <;>
    simp [sanitize_ai_record, Function.comp] <;>
    exact List.map_id outputCols

theorem dget_sanitize_notDict (k : String) :
    dget (sanitize_ai_record .notDict) k = .null := by
  unfold sanitize_ai_record dget
  rw [lookup_map_pairs (fun _ => Value.null) outputCols k]
  by_cases hk : k ∈ outputCols <;> simp [hk]

theorem dget_sanitize_dict (d : List (String × Value)) (k : String) (hk : k ∈ outputCols) :
    dget (sanitize_ai_record (.dict d)) k
      = (match d.lookup k with
         | some v => sanitizeField v
         | none => Value.null) := by
  unfold sanitize_ai_record dget
  rw [lookup_map_pairs
    (fun c => match d.lookup c with | some v => sanitizeField v | none => Value.null)
    outputCols k]
  simp [hk]

theorem map_fst_dset_mem {β : Type} (l : List (String × β)) (k : String) (v : β)
    (h : k ∈ l.map Prod.fst) : (dset l k v).map Prod.fst = l.map Prod.fst := by
  rw [map_fst_dset, if_pos h]

theorem map_fst_dset_cols {β : Type} (l : List (String × β)) (k : String) (v : β)
    (h : l.map Prod.fst = outputCols) (hk : k ∈ outputCols) :
    (dset l k v).map Prod.fst = outputCols := by
  rw [map_fst_dset_mem l k v (by rw [h]; exact hk), h]

theorem map_fst_recAfterExplicit (r : Rec) (h : r.map Prod.fst = outputCols) :
    (recAfterExplicit r).map Prod.fst = outputCols := by
  unfold recAfterExplicit
  split
  · exact h
  · exact map_fst_dset_cols r "amount_sign" _ h (by decide)

theorem map_fst_recAfterInfer (r row_json : Rec) (si : Nat)
    (h : r.map Prod.fst = outputCols) :
    (recAfterInfer r row_json si).map Prod.fst = outputCols := by
  unfold recAfterInfer
  split
  · exact map_fst_dset_cols r "amount_sign" _ h (by decide)
  · exact h

theorem map_fst_deSignRec (r : Rec) (h : r.map Prod.fst = outputCols) :
    (deSignRec r).map Prod.fst = outputCols := by
  unfold deSignRec
  have hgen : ∀ (keys : List String) (r : Rec), (∀ k ∈ keys, k ∈ outputCols) →
      r.map Prod.fst = outputCols →
      ((keys.foldl (fun r k => let v := dget r k; if v = .null then r else dset r k (deSignValue v)) r).map
        Prod.fst) = outputCols := by
    intro keys
    induction keys with
    | nil => intro r _ hr; simpa using hr
    | cons k t ih =>
      intro r hmem hr
      simp only [List.foldl_cons]
      apply ih
      · intro k2 hk2
        exact hmem k2 (List.mem_cons_of_mem k hk2)
      · dsimp only
        split
        · exact hr
        · exact map_fst_dset_cols r k _ hr (hmem k (List.mem_cons_self k t))
  exact hgen magnitudeKeys r (by decide) h

theorem map_fst_recAfterDesign (r : Rec) (h : r.map Prod.fst = outputCols) :
    (recAfterDesign r).map Prod.fst = outputCols := by
  unfold recAfterDesign
  split
  · exact map_fst_deSignRec r h
  · exact h

theorem map_fst_recSystem (r : Rec) (now : Nat) (fn : Option String) (cid : Option Int)
    (bn : Option String) (h : r.map Prod.fst = outputCols) :
    (recSystem r now fn cid bn).map Prod.fst = outputCols := by
  unfold recSystem
  apply map_fst_dset_cols _ "value_date" _ ?_ (by decide)
  apply map_fst_dset_cols _ "bank_name" _ ?_ (by decide)
  apply map_fst_dset_cols _ "client_id" _ ?_ (by decide)
  apply map_fst_dset_cols _ "file_name" _ ?_ (by decide)
  exact map_fst_dset_cols _ "createdon" _ h (by decide)

theorem map_fst_finalRec (obj : AiResp) (row : List (String × Value)) (si : Nat)
    (bn fn : Option String) (cid : Option Int) (now : Nat) :
    (finalRec obj row si bn fn cid now).map Prod.fst = outputCols := by
  unfold finalRec recSigned
  apply map_fst_recSystem
  apply map_fst_recAfterDesign
  apply map_fst_recAfterInfer
  apply map_fst_recAfterExplicit
  exact map_fst_sanitize obj

theorem sanitizeField_ne_empty (v : Value) : sanitizeField v ≠ .str "" := by
  cases v with
  | str s =>
    show (if pyStrip s = "" then Value.null else Value.str s) ≠ .str ""
    split
    · simp
    · rename_i hne
      intro hc
      injection hc with hs
      exact hne (by rw [hs]; rfl)
  | null => simp [sanitizeField]
  | bool b => simp [sanitizeField]
  | int n => simp [sanitizeField]
  | num q => simp [sanitizeField]
  | time t => simp [sanitizeField]

theorem noempty_sanitize (obj : AiResp) :
    ∀ p ∈ sanitize_ai_record obj, p.2 ≠ .str "" := by
  cases obj with
  | notDict =>
    intro p hp
    simp only [sanitize_ai_record, List.mem_map] at hp
    obtain ⟨c, _, hpe⟩ := hp
    rw [← hpe]
    simp
  | dict d =>
    intro p hp
    simp only [sanitize_ai_record, List.mem_map] at hp
    obtain ⟨c, _, hpe⟩ := hp
    rw [← hpe]
    dsimp only
    cases d.lookup c with
    | none => simp
    | some v => exact sanitizeField_ne_empty v

theorem ite_empty_ne (t : String) : (if t = "" then Value.null else Value.str t) ≠ .str "" := by
  split
  · simp
  · rename_i hne
    intro hc
    injection hc with hs
    exact hne hs

theorem deSignText_ne_empty (s : String) : deSignText s ≠ .str "" := by
  unfold deSignText
  dsimp only
  by_cases h0 : pyStrip s = ""
  · simp [h0]
  · rw [if_neg h0]
    exact ite_empty_ne _

theorem deSignValue_ne_empty (v : Value) : deSignValue v ≠ .str "" := by
  cases v with
  | str s => exact deSignText_ne_empty s
  | time t => exact deSignText_ne_empty _
  | null => simp [deSignValue]
  | bool b => simp [deSignValue]
  | int n => simp [deSignValue]
  | num q => simp [deSignValue]

theorem intNormSign_ne_empty (v : Value) : intNormSign v ≠ .str "" := by
  unfold intNormSign
  cases pyIntParse (pyStrip (pyStrVal v)) with
  | none => simp
  | some n =>
    dsimp only
    split <;> simp

theorem optSign_ne_empty (o : Option Int) : optSign o ≠ .str "" := by
  cases o <;> simp [optSign]

theorem optStrV_ne_empty (o : Option String) (h : o ≠ some "") : optStrV o ≠ .str "" := by
  cases o with
  | none => simp [optStrV]
  | some s =>
    simp only [optStrV]
    intro hc
    injection hc with hs
    exact h (by rw [hs])

theorem optIntV_ne_empty (o : Option Int) : optIntV o ≠ .str "" := by
  cases o <;> simp [optIntV]

theorem dget_pred (P : Value → Prop) (r : Rec) (k : String)
    (hr : ∀ p ∈ r, P p.2) (hnull : P .null) : P (dget r k) := by
  unfold dget
  cases hl : r.lookup k with
  | none => exact hnull
  | some v => exact hr (k, v) (lookup_mem r k v hl)

theorem noempty_recAfterExplicit (r : Rec) (h : ∀ p ∈ r, p.2 ≠ .str "") :
    ∀ p ∈ recAfterExplicit r, p.2 ≠ .str "" := by
  unfold recAfterExplicit
  split
  · exact h
  · exact values_dset (fun v => v ≠ Value.str "") r "amount_sign" _ h (intNormSign_ne_empty _)

theorem noempty_recAfterInfer (r row_json : Rec) (si : Nat) (h : ∀ p ∈ r, p.2 ≠ .str "") :
    ∀ p ∈ recAfterInfer r row_json si, p.2 ≠ .str "" := by
  unfold recAfterInfer
  split
  · exact values_dset (fun v => v ≠ Value.str "") r "amount_sign" _ h (optSign_ne_empty _)
  · exact h

theorem noempty_deSignRec (r : Rec) (h : ∀ p ∈ r, p.2 ≠ .str "") :
    ∀ p ∈ deSignRec r, p.2 ≠ .str "" := by
  unfold deSignRec
  have hgen : ∀ (keys : List String) (r : Rec), (∀ p ∈ r, p.2 ≠ .str "") →
      ∀ p ∈ keys.foldl
        (fun r k => let v := dget r k; if v = .null then r else dset r k (deSignValue v)) r,
        p.2 ≠ .str "" := by
    intro keys
    induction keys with
    | nil => intro r hr; simpa using hr
    | cons k t ih =>
      intro r hr
      simp only [List.foldl_cons]
      apply ih
      dsimp only
      split
      · exact hr
      · exact values_dset (fun v => v ≠ Value.str "") r k _ hr (deSignValue_ne_empty _)
  exact hgen magnitudeKeys r h

theorem noempty_recAfterDesign (r : Rec) (h : ∀ p ∈ r, p.2 ≠ .str "") :
    ∀ p ∈ recAfterDesign r, p.2 ≠ .str "" := by
  unfold recAfterDesign
  split
  · exact noempty_deSignRec r h
  · exact h

theorem noempty_recSystem (r : Rec) (now : Nat) (fn : Option String) (cid : Option Int)
    (bn : Option String) (hfn : fn ≠ some "") (hbn : bn ≠ some "")
    (h : ∀ p ∈ r, p.2 ≠ .str "") :
    ∀ p ∈ recSystem r now fn cid bn, p.2 ≠ .str "" := by
  unfold recSystem
  have h1 := values_dset (fun v => v ≠ Value.str "") r "createdon" (.time now) h (by simp)
  have h2 := values_dset (fun v => v ≠ Value.str "") _ "file_name" (optStrV fn) h1
    (optStrV_ne_empty fn hfn)
  have h3 := values_dset (fun v => v ≠ Value.str "") _ "client_id" (optIntV cid) h2
    (optIntV_ne_empty cid)
  have h4 := values_dset (fun v => v ≠ Value.str "") _ "bank_name" (optStrV bn) h3
    (optStrV_ne_empty bn hbn)
  exact values_dset (fun v => v ≠ Value.str "") _ "value_date" _ h4
    (dget_pred (fun v => v ≠ Value.str "") _ "trade_date" h4 (by simp))

/-- C6: whatever the classifier returns — a non-object, a partial object, or
an object with extra keys — a record that normalisation returns has key set
exactly `OUTPUT_COLS`, in order, and carries no empty-string value (empty
strings are converted to null; the file/bank system parameters are
themselves non-empty by hypothesis). -/
theorem C6_field_set_closure :
    ∀ (obj : AiResp) (row : List (String × Value)) (si : Nat) (bn fn : Option String)
      (cid : Option Int) (now : Nat) (rec : Rec),
      fn ≠ some "" → bn ≠ some "" →
      ai_transform_one_row_to_db_record obj row si bn fn cid now = some rec →
      rec.map Prod.fst = outputCols ∧ ∀ p ∈ rec, p.2 ≠ Value.str "" := by
  intro obj row si bn fn cid now rec hfn hbn hsome
  unfold ai_transform_one_row_to_db_record at hsome
  have hrec : rec = finalRec obj row si bn fn cid now := by
    by_cases hd : should_drop_record (finalRec obj row si bn fn cid now)
    · simp [hd] at hsome
    · simp only [hd, Bool.false_eq_true, if_neg, reduceIte, Option.some.injEq] at hsome
      exact hsome.symm
  subst hrec
  refine ⟨map_fst_finalRec obj row si bn fn cid now, ?_⟩
  unfold finalRec recSigned
  apply noempty_recSystem _ _ _ _ _ hfn hbn
  apply noempty_recAfterDesign
  apply noempty_recAfterInfer
  apply noempty_recAfterExplicit
  exact noempty_sanitize obj

/-- Witness for C6 at a concrete partial object with an extra key. -/
theorem C6_field_set_closure_witness :
    ((finalRec (.dict [("description", .str "fee"), ("bogus_key", .str "zz")]) [] 0
        (some "UBS") (some "f.xlsx") (some 7) 0).map Prod.fst = outputCols)
    ∧ ∀ p ∈ finalRec (.dict [("description", .str "fee"), ("bogus_key", .str "zz")]) [] 0
        (some "UBS") (some "f.xlsx") (some 7) 0, p.2 ≠ Value.str "" := by
  exact C6_field_set_closure (.dict [("description", .str "fee"), ("bogus_key", .str "zz")])
    [] 0 (some "UBS") (some "f.xlsx") (some 7) 0 _
    (by simp) (by simp) (by rfl)

theorem pyLStripL_suffix (l : List Char) : pyLStripL l <:+ l := List.dropWhile_suffix isPySpace

theorem pyRStripL_pref (l : List Char) : pyRStripL l <+: l := by
  unfold pyRStripL
  rw [← List.reverse_suffix]
  have h : l.reverse.dropWhile isPySpace <:+ l.reverse := List.dropWhile_suffix isPySpace
  simpa using h

theorem pyStripL_inf (l : List Char) : pyStripL l <:+: l := by
  unfold pyStripL
  have h1 := pyRStripL_pref (pyLStripL l)
  exact h1.isInfix.trans (pyLStripL_suffix l).isInfix

theorem chopEndsL_inf (l : List Char) : chopEndsL l <:+: l := by
  unfold chopEndsL
  have h1 := List.dropLast_prefix (l.drop 1)
  exact h1.isInfix.trans (List.drop_suffix 1 l).isInfix

theorem stripParensOnce_inf (x : String) : (stripParensOnce x).data <:+: x.data := by
  unfold stripParensOnce
  split
  · exact (pyStripL_inf (chopEndsL x.data)).trans (chopEndsL_inf x.data)
  · exact List.infix_rfl

theorem stripLeadingMinus_inf (x : String) : (stripLeadingMinus x).data <:+: x.data := by
  unfold stripLeadingMinus
  split
  · exact ((pyLStripL_suffix (x.data.drop 1)).trans (List.drop_suffix 1 x.data)).isInfix
  · exact List.infix_rfl

theorem stripTrailingMinus_inf (x : String) : (stripTrailingMinus x).data <:+: x.data := by
  unfold stripTrailingMinus
  split
  · have h1 := pyRStripL_pref x.data.dropLast
    have h2 := List.dropLast_prefix x.data
    exact (h1.trans h2).isInfix
  · exact List.infix_rfl

theorem dget_designStep_self (r : Rec) (k : String) :
    dget (if dget r k = .null then r else dset r k (deSignValue (dget r k))) k
      = deSignValue (dget r k) := by
  split
  · rename_i h
    rw [h]
    rfl
  · rw [dget_dset_self]

theorem dget_designStep_ne (r : Rec) (k k' : String) (h : k ≠ k') :
    dget (if dget r k = .null then r else dset r k (deSignValue (dget r k))) k'
      = dget r k' := by
  split
  · rfl
  · exact dget_dset_ne r k k' _ h

theorem dget_deSignRec_mag (r : Rec) (k : String) (hk : k ∈ magnitudeKeys) :
    dget (deSignRec r) k = deSignValue (dget r k) := by
  unfold deSignRec
  simp only [magnitudeKeys, List.foldl_cons, List.foldl_nil]
  fin_cases hk
  · rw [dget_designStep_ne _ "net_amount" "amount" (by decide),
      dget_designStep_ne _ "gross_amount" "amount" (by decide),
      dget_designStep_ne _ "quantity" "amount" (by decide),
      dget_designStep_self]
  · rw [dget_designStep_ne _ "net_amount" "quantity" (by decide),
      dget_designStep_ne _ "gross_amount" "quantity" (by decide),
      dget_designStep_self,
      dget_designStep_ne _ "amount" "quantity" (by decide)]
  · rw [dget_designStep_ne _ "net_amount" "gross_amount" (by decide),
      dget_designStep_self,
      dget_designStep_ne _ "quantity" "gross_amount" (by decide),
      dget_designStep_ne _ "amount" "gross_amount" (by decide)]
  · rw [dget_designStep_self,
      dget_designStep_ne _ "gross_amount" "net_amount" (by decide),
      dget_designStep_ne _ "quantity" "net_amount" (by decide),
      dget_designStep_ne _ "amount" "net_amount" (by decide)]

theorem dget_recSystem_mag (r : Rec) (now : Nat) (fn : Option String) (cid : Option Int)
    (bn : Option String) (k : String) (hk : k ∈ magnitudeKeys) :
    dget (recSystem r now fn cid bn) k = dget r k := by
  have h5 : k ≠ "createdon" ∧ k ≠ "file_name" ∧ k ≠ "client_id" ∧ k ≠ "bank_name"
      ∧ k ≠ "value_date" := by
    fin_cases hk <;> exact ⟨by decide, by decide, by decide, by decide, by decide⟩
  unfold recSystem
  rw [dget_dset_ne _ "value_date" k _ (Ne.symm h5.2.2.2.2),
    dget_dset_ne _ "bank_name" k _ (Ne.symm h5.2.2.2.1),
    dget_dset_ne _ "client_id" k _ (Ne.symm h5.2.2.1),
    dget_dset_ne _ "file_name" k _ (Ne.symm h5.2.1),
    dget_dset_ne _ "createdon" k _ (Ne.symm h5.1)]

/-- C1 (counterexample): for a record with explicit sign −1 and amount
`"(-5)"`, the code strips the parenthesis pair AND then the inner leading
minus, storing `"5"`; the claim's "at most ONE transformation, in priority
order" would stop after the parenthesis strip and store `"-5"`. -/
theorem C1_counterexample :
    dget (finalRec (.dict [("amount", .str "(-5)"), ("amount_sign", .int (-1))]) [] 0
        none none none 0) "amount" = Value.str "5"
    ∧ deSignTextAtMostOne "(-5)" = Value.str "-5"
    ∧ Value.str "5" ≠ Value.str "-5" := by
  refine ⟨by decide, by decide, by decide⟩

/-- C1 (amended): once the resolved `amount_sign` is −1 or +1, each of the
four magnitude fields is de-signed from its sanitised value: a parsed number
is replaced by its absolute value; a textual value is transformed by
applying, in sequence, each of the three strips that matches — one enclosing
parenthesis pair, then one leading minus, then one trailing minus (so up to
three transformations may apply, e.g. `"(-5)" → "5"`) — and an empty result
becomes null; the kept text is always a contiguous substring of the
original, so the decimal digits are never reformatted. -/
theorem C1_amended_designing :
    (∀ (obj : AiResp) (row : List (String × Value)) (si : Nat) (bn fn : Option String)
      (cid : Option Int) (now : Nat),
      (pyEqInt (resolvedSign obj row si) (-1) || pyEqInt (resolvedSign obj row si) 1) = true →
      ∀ k ∈ magnitudeKeys,
        dget (finalRec obj row si bn fn cid now) k
          = deSignValue (dget (recSigned obj row si) k))
    ∧ (∀ n : Int, deSignValue (.int n) = .int |n|)
    ∧ (∀ q : ℚ, deSignValue (.num q) = .num |q|)
    ∧ (∀ s : String, deSignText s = deSignTextSeqSpec s)
    ∧ (∀ s t : String, deSignText s = .str t → t.data <:+: s.data) := by
  have hseq : ∀ s : String, deSignText s = deSignTextSeqSpec s := by
    intro s
    rfl
  refine ⟨?_, fun n => rfl, fun q => rfl, hseq, ?_⟩
  · intro obj row si bn fn cid now hsign k hk
    unfold finalRec
    rw [dget_recSystem_mag _ _ _ _ _ k hk]
    unfold resolvedSign at hsign
    unfold recAfterDesign
    rw [if_pos hsign]
    exact dget_deSignRec_mag _ k hk
  · intro s t h
    rw [hseq s] at h
    unfold deSignTextSeqSpec at h
    dsimp only at h
    by_cases h0 : pyStrip s = ""
    · rw [if_pos h0] at h
      exact absurd h (by simp)
    · rw [if_neg h0] at h
      by_cases h1 : stripTrailingMinus (stripLeadingMinus (stripParensOnce (pyStrip s))) = ""
      · rw [if_pos h1] at h
        exact absurd h (by simp)
      · rw [if_neg h1] at h
        have ht : t = stripTrailingMinus (stripLeadingMinus (stripParensOnce (pyStrip s))) := by
          injection h.symm
        rw [ht]
        have hi1 := stripTrailingMinus_inf (stripLeadingMinus (stripParensOnce (pyStrip s)))
        have hi2 := stripLeadingMinus_inf (stripParensOnce (pyStrip s))
        have hi3 := stripParensOnce_inf (pyStrip s)
        have hi4 : (pyStrip s).data <:+: s.data := pyStripL_inf s.data
        exact ((hi1.trans hi2).trans hi3).trans hi4

/-- Witness for C1's amended theorem at the record of the counterexample:
the field equation, the numeric absolute-value case, and the substring
property at `"(-5)"`. -/
theorem C1_amended_witness :
    dget (finalRec (.dict [("amount", .str "(-5)"), ("amount_sign", .int (-1))]) [] 0
        none none none 0) "amount"
      = deSignValue (dget (recSigned (.dict [("amount", .str "(-5)"), ("amount_sign", .int (-1))])
        [] 0) "amount")
    ∧ deSignValue (.int (-7)) = .int 7
    ∧ ("5" : String).data <:+: ("(-5)" : String).data := by
  refine ⟨?_, C1_amended_designing.2.1 (-7), ?_⟩
  · exact C1_amended_designing.1 (.dict [("amount", .str "(-5)"), ("amount_sign", .int (-1))])
      [] 0 none none none 0 (by decide) "amount" (by decide)
  · exact C1_amended_designing.2.2.2.2 "(-5)" "5" (by decide)

theorem isPySpace_false_of_digit {c : Char} (h1 : 48 ≤ c.toNat) : isPySpace c = false := by
  unfold isPySpace
  have hne : ∀ d : Char, d.toNat < 48 → (c == d) = false := by
    intro d hd
    rw [beq_eq_false_iff_ne]
    intro he
    rw [he] at h1
    omega
  rw [hne ' ' (by decide), hne '\t' (by decide), hne '\n' (by decide), hne '\r' (by decide),
    hne (Char.ofNat 11) (by decide), hne (Char.ofNat 12) (by decide)]
  rfl

theorem dropWhile_eq_self_of {p : Char → Bool} :
    ∀ {l : List Char}, (∀ c ∈ l, p c = false) → l.dropWhile p = l := by
  intro l h
  cases l with
  | nil => rfl
  | cons c t =>
    apply List.dropWhile_cons_of_neg
    simp [h c (List.mem_cons_self c t)]

theorem pyStripL_eq_self_of {l : List Char} (h : ∀ c ∈ l, isPySpace c = false) :
    pyStripL l = l := by
  unfold pyStripL pyLStripL pyRStripL
  rw [dropWhile_eq_self_of h]
  rw [dropWhile_eq_self_of (fun c hc => h c (List.mem_reverse.1 hc))]
  exact List.reverse_reverse l

theorem natRepr_isDigit_aux (f : Nat) : ∀ (n : Nat) (c : Char),
    c ∈ natReprAux f n [] → c.isDigit = true := by
  induction f with
  | zero => intro n c hc; simp [natReprAux] at hc
  | succ f ih =>
    intro n c hc
    by_cases h : n < 10
    · simp [natReprAux, h] at hc
      rw [hc]
      interval_cases n <;> decide
    · simp only [natReprAux, if_neg h] at hc
      rw [natReprAux_acc] at hc
      rcases List.mem_append.1 hc with h1 | h2
      · exact ih _ _ h1
      · simp at h2
        rw [h2]
        have hm : n % 10 < 10 := Nat.mod_lt _ (by norm_num)
        revert hm
        generalize n % 10 = k
        intro hm
        interval_cases k <;> decide

theorem natRepr_isDigit (n : Nat) : ∀ c ∈ (natRepr n).data, c.isDigit = true :=
  natRepr_isDigit_aux (n + 1) n

theorem natRepr_ne_nil (n : Nat) : (natRepr n).data ≠ [] := by
  show natReprAux (n + 1) n [] ≠ []
  by_cases h : n < 10
  · simp [natReprAux, h]
  · simp only [natReprAux, if_neg h]
    rw [natReprAux_acc]
    simp

theorem splitSign_digits {l : List Char} (hne : l ≠ [])
    (hd : ∀ c ∈ l, 48 ≤ c.toNat ∧ c.toNat ≤ 57) : splitSign l = (1, l) := by
  cases l with
  | nil => exact absurd rfl hne
  | cons c t =>
    have hc := hd c (List.mem_cons_self c t)
    unfold splitSign
    dsimp only
    rw [if_neg, if_neg]
    · intro he
      rw [he] at hc
      exact absurd hc (by decide)
    · intro he
      rw [he] at hc
      exact absurd hc (by decide)

theorem pyIntParse_natRepr (m : Nat) : pyIntParse (natRepr m) = some (m : Int) := by
  unfold pyIntParse
  have hnonspace : ∀ c ∈ (natRepr m).data, isPySpace c = false :=
    fun c hc => isPySpace_false_of_digit (natRepr_chars m c hc).1
  rw [pyStripL_eq_self_of hnonspace]
  rw [splitSign_digits (natRepr_ne_nil m) (natRepr_chars m)]
  rw [if_pos]
  · rw [natRepr_decode]
    simp
  · refine ⟨natRepr_ne_nil m, ?_⟩
    rw [List.all_eq_true]
    intro c hc
    exact natRepr_isDigit m c hc

theorem pyStrip_eq_self_of {s : String} (h : ∀ c ∈ s.data, isPySpace c = false) :
    pyStrip s = s := by
  unfold pyStrip
  rw [pyStripL_eq_self_of h]

theorem dropWhile_idem (p : Char → Bool) :
    ∀ l : List Char, (l.dropWhile p).dropWhile p = l.dropWhile p := by
  intro l
  induction l with
  | nil => rfl
  | cons c t ih =>
    by_cases h : p c
    · rw [List.dropWhile_cons_of_pos h]
      exact ih
    · rw [List.dropWhile_cons_of_neg h, List.dropWhile_cons_of_neg h]

theorem dropWhile_eq_self_of_pref {p : Char → Bool} {A B : List Char}
    (hpre : B <+: A) (hA : A.dropWhile p = A) : B.dropWhile p = B := by
  cases B with
  | nil => rfl
  | cons b B2 =>
    obtain ⟨t, ht⟩ := hpre
    have hb : p b = false := by
      by_contra hpb
      rw [Bool.not_eq_false] at hpb
      rw [← ht, List.cons_append, List.dropWhile_cons_of_pos hpb] at hA
      have hlen := congrArg List.length hA
      rw [List.length_cons] at hlen
      have hsx : (B2 ++ t).dropWhile p <:+ (B2 ++ t) := List.dropWhile_suffix p
      have hle := hsx.length_le
      omega
    rw [List.dropWhile_cons_of_neg (by simp [hb])]

theorem rstrip_idem (l : List Char) :
    ((l.reverse.dropWhile isPySpace).reverse.reverse.dropWhile isPySpace).reverse
      = (l.reverse.dropWhile isPySpace).reverse := by
  rw [List.reverse_reverse, dropWhile_idem]

theorem pyStripL_idem (l : List Char) : pyStripL (pyStripL l) = pyStripL l := by
  unfold pyStripL pyLStripL pyRStripL
  have hApre : (((l.dropWhile isPySpace).reverse.dropWhile isPySpace).reverse)
      <+: l.dropWhile isPySpace := by
    have hs : ((l.dropWhile isPySpace).reverse.dropWhile isPySpace)
        <:+ (l.dropWhile isPySpace).reverse := List.dropWhile_suffix isPySpace
    have hs2 : (((l.dropWhile isPySpace).reverse.dropWhile isPySpace).reverse).reverse
        <:+ (l.dropWhile isPySpace).reverse := by
      rw [List.reverse_reverse]
      exact hs
    exact List.reverse_suffix.1 hs2
  have hlB : (((l.dropWhile isPySpace).reverse.dropWhile isPySpace).reverse).dropWhile isPySpace
      = ((l.dropWhile isPySpace).reverse.dropWhile isPySpace).reverse :=
    dropWhile_eq_self_of_pref hApre (dropWhile_idem isPySpace l)
  rw [hlB]
  exact rstrip_idem (l.dropWhile isPySpace)

theorem pyIntParse_pyStrip (s : String) : pyIntParse (pyStrip s) = pyIntParse s := by
  unfold pyIntParse pyStrip
  have h := pyStripL_idem s.data
  rw [show (String.mk (pyStripL s.data)).data = pyStripL s.data from rfl, h]

theorem pyIntParse_intRepr (n : Int) : pyIntParse (pyStrip (intRepr n)) = some n := by
  rw [pyIntParse_pyStrip]
  unfold intRepr
  by_cases hn : n < 0
  · rw [if_pos hn]
    unfold pyIntParse
    have hdata : ("-" ++ natRepr n.natAbs).data = '-' :: (natRepr n.natAbs).data := by
      rw [String.data_append]
      rfl
    rw [hdata]
    have hnonspace : ∀ c ∈ '-' :: (natRepr n.natAbs).data, isPySpace c = false := by
      intro c hc
      rcases List.mem_cons.1 hc with hc | hc
      · rw [hc]; decide
      · exact isPySpace_false_of_digit (natRepr_chars _ c hc).1
    rw [pyStripL_eq_self_of hnonspace]
    have hsplit : splitSign ('-' :: (natRepr n.natAbs).data) = (-1, (natRepr n.natAbs).data) := by
      unfold splitSign
      dsimp only
      rw [if_neg (by decide), if_pos rfl]
    rw [hsplit]
    rw [if_pos]
    · rw [natRepr_decode]
      have : ((-1 : Int)) * (n.natAbs : Int) = n := by omega
      rw [this]
    · refine ⟨natRepr_ne_nil _, ?_⟩
      rw [List.all_eq_true]
      intro c hc
      exact natRepr_isDigit _ c hc
  · rw [if_neg hn]
    rw [pyIntParse_natRepr]
    congr 1
    omega

theorem infer_num_pos (q : ℚ) (hq : 0 < q) : infer_sign_from_raw (.num q) = some 1 := by
  unfold infer_sign_from_raw
  dsimp only
  rw [if_neg (by linarith), if_pos hq]

theorem infer_num_neg (q : ℚ) (hq : q < 0) : infer_sign_from_raw (.num q) = some (-1) := by
  unfold infer_sign_from_raw
  dsimp only
  rw [if_pos hq]

theorem compute_sheet1 (tt : Option String) (qty amt : Value) :
    (∀ q : ℚ, 0 < q → compute_amount_sign_raw tt (.num q) amt 1 = some (-1))
    ∧ (∀ q : ℚ, q < 0 → compute_amount_sign_raw tt (.num q) amt 1 = some 1)
    ∧ (infer_sign_from_raw qty = none →
        compute_amount_sign_raw tt qty amt 1 = infer_sign_from_raw amt) := by
  refine ⟨?_, ?_, ?_⟩
  · intro q hq
    unfold compute_amount_sign_raw
    rw [if_pos rfl, infer_num_pos q hq]
    norm_num
  · intro q hq
    unfold compute_amount_sign_raw
    rw [if_pos rfl, infer_num_neg q hq]
    norm_num
  · intro h
    unfold compute_amount_sign_raw
    rw [if_pos rfl, h]

theorem compute_subred (si : Nat) (tt : Option String) (qty amt : Value)
    (ht : pyLower (pyStrip (tt.getD "")) = "subscription"
        ∨ pyLower (pyStrip (tt.getD "")) = "redemption") :
    (∀ q : ℚ, 0 < q → compute_amount_sign_raw tt (.num q) amt si = some (-1))
    ∧ (∀ q : ℚ, q < 0 → compute_amount_sign_raw tt (.num q) amt si = some 1)
    ∧ (infer_sign_from_raw qty = none →
        compute_amount_sign_raw tt qty amt si = infer_sign_from_raw amt) := by
  by_cases hsi : si = 1
  · subst hsi
    exact compute_sheet1 tt qty amt
  · refine ⟨?_, ?_, ?_⟩
    · intro q hq
      unfold compute_amount_sign_raw
      rw [if_neg hsi, if_pos ht, infer_num_pos q hq]
      norm_num
    · intro q hq
      unfold compute_amount_sign_raw
      rw [if_neg hsi, if_pos ht, infer_num_neg q hq]
      norm_num
    · intro h
      unfold compute_amount_sign_raw
      rw [if_neg hsi, if_pos ht, h]

theorem compute_otherwise (si : Nat) (tt : Option String) (qty amt : Value)
    (hsi : si ≠ 1)
    (ht : ¬(pyLower (pyStrip (tt.getD "")) = "subscription"
        ∨ pyLower (pyStrip (tt.getD "")) = "redemption")) :
    compute_amount_sign_raw tt qty amt si = infer_sign_from_raw amt := by
  unfold compute_amount_sign_raw
  rw [if_neg hsi, if_neg ht]

theorem startsWith_ne_empty {s : String} {c : Char} (h : pyStartsWithC s c = true) : s ≠ "" := by
  intro he
  rw [he] at h
  simp [pyStartsWithC] at h

theorem endsWith_ne_empty {s : String} {c : Char} (h : pyEndsWithC s c = true) : s ≠ "" := by
  intro he
  rw [he] at h
  simp [pyEndsWithC] at h

theorem infer_neg_text (s : String)
    (h : (pyStartsWithC (pyStrip s) '(' = true ∧ pyEndsWithC (pyStrip s) ')' = true)
        ∨ pyStartsWithC (pyStrip s) '-' = true ∨ pyEndsWithC (pyStrip s) '-' = true) :
    infer_sign_from_raw (.str s) = some (-1) := by
  unfold infer_sign_from_raw
  dsimp only
  rcases h with ⟨hA, hB⟩ | hC | hD
  · rw [if_neg (startsWith_ne_empty hA), if_pos ⟨hA, hB⟩]
  · have hne := startsWith_ne_empty hC
    have hnp : ¬(pyStartsWithC (pyStrip s) '(' = true ∧ pyEndsWithC (pyStrip s) ')' = true) := by
      intro ⟨hA, _⟩
      unfold pyStartsWithC at hA hC
      have h1 : (pyStrip s).data.head? = some '(' := by simpa using hA
      have h2 : (pyStrip s).data.head? = some '-' := by simpa using hC
      rw [h1] at h2
      exact absurd h2 (by decide)
    rw [if_neg hne, if_neg hnp, if_pos (Or.inl hC)]
  · have hne := endsWith_ne_empty hD
    have hnp : ¬(pyStartsWithC (pyStrip s) '(' = true ∧ pyEndsWithC (pyStrip s) ')' = true) := by
      intro ⟨_, hB⟩
      unfold pyEndsWithC at hB hD
      have h1 : (pyStrip s).data.getLast? = some ')' := by simpa using hB
      have h2 : (pyStrip s).data.getLast? = some '-' := by simpa using hD
      rw [h1] at h2
      exact absurd h2 (by decide)
    rw [if_neg hne, if_neg hnp, if_pos (Or.inr hD)]

theorem dget_sanitize_sign (d : List (String × Value)) (v : Value)
    (hlook : d.lookup "amount_sign" = some v) :
    dget (sanitize_ai_record (.dict d)) "amount_sign" = sanitizeField v := by
  rw [dget_sanitize_dict d "amount_sign" (by decide), hlook]

theorem resolvedSign_of_explicit_norm (d : List (String × Value))
    (row : List (String × Value)) (si : Nat) (v : Value)
    (hlook : d.lookup "amount_sign" = some v) (hv : sanitizeField v ≠ .null) (s : Int)
    (hnorm : intNormSign (sanitizeField v) = .int s) :
    resolvedSign (.dict d) row si = .int s := by
  unfold resolvedSign recSigned
  have h0 := dget_sanitize_sign d v hlook
  have h1 : recAfterExplicit (sanitize_ai_record (.dict d))
      = dset (sanitize_ai_record (.dict d)) "amount_sign" (.int s) := by
    unfold recAfterExplicit
    rw [h0, if_neg hv, hnorm]
  have h2 : dget (recAfterExplicit (sanitize_ai_record (.dict d))) "amount_sign" = .int s := by
    rw [h1, dget_dset_self]
  unfold recAfterInfer
  rw [h2]
  rw [if_neg (by simp)]
  exact h2

theorem resolvedSign_inferred_of_null (d : List (String × Value))
    (row : List (String × Value)) (si : Nat)
    (hnull : dget (recAfterExplicit (sanitize_ai_record (.dict d))) "amount_sign" = .null) :
    resolvedSign (.dict d) row si = optSign (inferredSign (.dict d) row si) := by
  unfold resolvedSign recSigned recAfterInfer inferredSign
  rw [hnull]
  rw [if_pos rfl, dget_dset_self]

theorem recAfterExplicit_null_of_norm (d : List (String × Value)) (v : Value)
    (hlook : d.lookup "amount_sign" = some v) (hv : sanitizeField v ≠ .null)
    (hnorm : intNormSign (sanitizeField v) = .null) :
    dget (recAfterExplicit (sanitize_ai_record (.dict d))) "amount_sign" = .null := by
  have h0 := dget_sanitize_sign d v hlook
  unfold recAfterExplicit
  rw [h0, if_neg hv, hnorm, dget_dset_self]

theorem recAfterExplicit_null_of_blank (d : List (String × Value)) (v : Value)
    (hlook : d.lookup "amount_sign" = some v) (hv : sanitizeField v = .null) :
    dget (recAfterExplicit (sanitize_ai_record (.dict d))) "amount_sign" = .null := by
  have h0 := dget_sanitize_sign d v hlook
  unfold recAfterExplicit
  rw [h0, hv]
  rw [if_pos rfl, h0, hv]

theorem recAfterExplicit_null_of_absent (d : List (String × Value))
    (hlook : d.lookup "amount_sign" = none) :
    dget (recAfterExplicit (sanitize_ai_record (.dict d))) "amount_sign" = .null := by
  have h0 : dget (sanitize_ai_record (.dict d)) "amount_sign" = .null := by
    rw [dget_sanitize_dict d "amount_sign" (by decide), hlook]
  unfold recAfterExplicit
  rw [h0]
  rw [if_pos rfl, h0]

/-- C8: (1) an explicit amount_sign of −1 or +1 is kept as-is; (2) any other
explicit value — 0, other integers, unparseable text, or a blank — is
treated as absent, and so is a missing field: the sign is then inferred from
the raw fields; (3) on sheet index 1 a positive raw quantity yields −1 and a
negative one +1, falling back to the raw amount's sign when the quantity
gives none; (4) for transaction types "subscription" / "redemption" the same
quantity inversion applies on any sheet; (5) otherwise the sign is the raw
amount's own sign, where parenthesized, minus-prefixed, or minus-suffixed
text means negative. -/
theorem C8_sign_resolution :
    (∀ (d row : List (String × Value)) (si : Nat) (s : Int), (s = -1 ∨ s = 1) →
      d.lookup "amount_sign" = some (.int s) →
      resolvedSign (.dict d) row si = .int s)
    ∧ (∀ (d row : List (String × Value)) (si : Nat) (n : Int), ¬(n = -1 ∨ n = 1) →
      d.lookup "amount_sign" = some (.int n) →
      resolvedSign (.dict d) row si = optSign (inferredSign (.dict d) row si))
    ∧ (∀ (d row : List (String × Value)) (si : Nat) (s0 : String),
      pyIntParse (pyStrip s0) = none →
      d.lookup "amount_sign" = some (.str s0) →
      resolvedSign (.dict d) row si = optSign (inferredSign (.dict d) row si))
    ∧ (∀ (d row : List (String × Value)) (si : Nat),
      d.lookup "amount_sign" = none →
      resolvedSign (.dict d) row si = optSign (inferredSign (.dict d) row si))
    ∧ (∀ (tt : Option String) (qty amt : Value),
      (∀ q : ℚ, 0 < q → compute_amount_sign_raw tt (.num q) amt 1 = some (-1))
      ∧ (∀ q : ℚ, q < 0 → compute_amount_sign_raw tt (.num q) amt 1 = some 1)
      ∧ (infer_sign_from_raw qty = none →
          compute_amount_sign_raw tt qty amt 1 = infer_sign_from_raw amt))
    ∧ (∀ (si : Nat) (tt : Option String) (qty amt : Value),
      (pyLower (pyStrip (tt.getD "")) = "subscription"
        ∨ pyLower (pyStrip (tt.getD "")) = "redemption") →
      (∀ q : ℚ, 0 < q → compute_amount_sign_raw tt (.num q) amt si = some (-1))
      ∧ (∀ q : ℚ, q < 0 → compute_amount_sign_raw tt (.num q) amt si = some 1)
      ∧ (infer_sign_from_raw qty = none →
          compute_amount_sign_raw tt qty amt si = infer_sign_from_raw amt))
    ∧ (∀ (si : Nat) (tt : Option String) (qty amt : Value), si ≠ 1 →
      ¬(pyLower (pyStrip (tt.getD "")) = "subscription"
        ∨ pyLower (pyStrip (tt.getD "")) = "redemption") →
      compute_amount_sign_raw tt qty amt si = infer_sign_from_raw amt)
    ∧ (∀ s : String,
      ((pyStartsWithC (pyStrip s) '(' = true ∧ pyEndsWithC (pyStrip s) ')' = true)
        ∨ pyStartsWithC (pyStrip s) '-' = true ∨ pyEndsWithC (pyStrip s) '-' = true) →
      infer_sign_from_raw (.str s) = some (-1)) := by
  refine ⟨?_, ?_, ?_, ?_, compute_sheet1, compute_subred, compute_otherwise, infer_neg_text⟩
  · intro d row si s hs hlook
    apply resolvedSign_of_explicit_norm d row si (.int s) hlook (by simp [sanitizeField])
    show intNormSign (.int s) = .int s
    unfold intNormSign
    rw [show pyStrVal (.int s) = intRepr s from rfl, pyIntParse_intRepr s]
    rcases hs with rfl | rfl <;> simp
  · intro d row si n hn hlook
    apply resolvedSign_inferred_of_null
    apply recAfterExplicit_null_of_norm d (.int n) hlook (by simp [sanitizeField])
    show intNormSign (.int n) = .null
    unfold intNormSign
    rw [show pyStrVal (.int n) = intRepr n from rfl, pyIntParse_intRepr n]
    simp [hn]
  · intro d row si s0 hp hlook
    apply resolvedSign_inferred_of_null
    by_cases hblank : pyStrip s0 = ""
    · apply recAfterExplicit_null_of_blank d (.str s0) hlook
      simp [sanitizeField, hblank]
    · apply recAfterExplicit_null_of_norm d (.str s0) hlook
      · simp [sanitizeField, hblank]
      · have hsf : sanitizeField (.str s0) = .str s0 := by simp [sanitizeField, hblank]
        rw [hsf]
        show intNormSign (.str s0) = .null
        unfold intNormSign
        rw [show pyStrVal (.str s0) = s0 from rfl, hp]
  · intro d row si hlook
    exact resolvedSign_inferred_of_null d row si (recAfterExplicit_null_of_absent d hlook)

/-- Witness for C8 at concrete inputs: explicit −1 kept; explicit 0 treated
as absent and inferred; sheet-1 positive quantity inverted; subscription
inversion; parenthesized amount negative in the default branch. -/
theorem C8_sign_resolution_witness :
    resolvedSign (.dict [("amount_sign", .int (-1))]) [] 0 = .int (-1)
    ∧ resolvedSign (.dict [("amount_sign", .int 0), ("amount", .str "7")]) [] 0
        = optSign (inferredSign (.dict [("amount_sign", .int 0), ("amount", .str "7")]) [] 0)
    ∧ compute_amount_sign_raw none (.num 5) (.str "9") 1 = some (-1)
    ∧ compute_amount_sign_raw (some "Subscription") (.num (-2)) (.str "9") 0 = some 1
    ∧ infer_sign_from_raw (.str " (123.45) ") = some (-1)
    ∧ compute_amount_sign_raw (some "buy") .null (.str " (123.45) ") 0
        = infer_sign_from_raw (.str " (123.45) ") := by
  refine ⟨?_, ?_, ?_, ?_, ?_, ?_⟩
  · exact C8_sign_resolution.1 [("amount_sign", .int (-1))] [] 0 (-1) (Or.inl rfl) rfl
  · exact C8_sign_resolution.2.1 [("amount_sign", .int 0), ("amount", .str "7")] [] 0 0
      (by decide) rfl
  · exact (C8_sign_resolution.2.2.2.2.1 none (.num 5) (.str "9")).1 5 (by norm_num)
  · exact (C8_sign_resolution.2.2.2.2.2.1 0 (some "Subscription") (.num (-2)) (.str "9")
      (by left; decide)).2.1 (-2) (by norm_num)
  · exact C8_sign_resolution.2.2.2.2.2.2.2 " (123.45) " (by decide)
  · exact C8_sign_resolution.2.2.2.2.2.2.1 0 (some "buy") .null (.str " (123.45) ")
      (by decide) (by decide)
